import Mathlib

/-
  Verification development for the `rt` path-tracing renderer.

  The Rust source is shallowly embedded in Lean 4: `f32` values are modelled
  as real numbers with exact arithmetic; the handful of places where IEEE
  special values (NaN / infinity) change control flow are modelled explicitly
  with `Option ℝ` (a `none` stands for a NaN or infinite result, which is
  never contained in a finite half-open range and is rejected by the
  renderer's `is_nan` guard).  Pass-blending arithmetic, which is pure
  rational arithmetic in the source, is embedded over `ℚ`.
-/

noncomputable section

open Real

/-- Vec3 from `vec3.rs` / the `glam`/`nalgebra` vector used throughout
`hittable.rs`: three floating-point components, embedded as reals. -/
structure Vec3 where
  x : ℝ
  y : ℝ
  z : ℝ
deriving DecidableEq

namespace Vec3

/-- Componentwise addition. -/
def add (a b : Vec3) : Vec3 := ⟨a.x + b.x, a.y + b.y, a.z + b.z⟩

/-- Componentwise subtraction. -/
def sub (a b : Vec3) : Vec3 := ⟨a.x - b.x, a.y - b.y, a.z - b.z⟩

/-- Componentwise negation. -/
def neg (a : Vec3) : Vec3 := ⟨-a.x, -a.y, -a.z⟩

/-- Scalar multiplication (`v * s` in the source). -/
def smul (s : ℝ) (a : Vec3) : Vec3 := ⟨s * a.x, s * a.y, s * a.z⟩

instance : Add Vec3 := ⟨add⟩
instance : Sub Vec3 := ⟨sub⟩
instance : Neg Vec3 := ⟨neg⟩
instance : SMul ℝ Vec3 := ⟨smul⟩
instance : Zero Vec3 := ⟨⟨0, 0, 0⟩⟩

/-- Dot product. -/
def dot (a b : Vec3) : ℝ := a.x * b.x + a.y * b.y + a.z * b.z

/-- Cross product. -/
def cross (a b : Vec3) : Vec3 :=
  ⟨a.y * b.z - a.z * b.y, a.z * b.x - a.x * b.z, a.x * b.y - a.y * b.x⟩

/-- Squared Euclidean norm (`norm_squared` / `length_squared`). -/
def normSq (a : Vec3) : ℝ := dot a a

/-- Euclidean norm (`norm` / `length`). -/
def length (a : Vec3) : ℝ := Real.sqrt (normSq a)

/-- Normalization `v / |v|`.  For `v = 0` the source would produce NaN
components; in the embedding real division by zero yields `0`, and every
code path that could reach a zero vector here is rejected before the value
is used (degenerate triangles have determinant `0` and never hit). -/
def normalize (a : Vec3) : Vec3 := smul (length a)⁻¹ a

/-- Componentwise product (`component_mul`). -/
def componentMul (a b : Vec3) : Vec3 := ⟨a.x * b.x, a.y * b.y, a.z * b.z⟩

/-- The constant `Vec3::ONE`. -/
def ONE : Vec3 := ⟨1, 1, 1⟩

end Vec3

/-- Ray `{origin, direction}` from `vec3.rs`/`ray.rs`; `at t = origin + t·dir`. -/
structure Ray where
  origin : Vec3
  direction : Vec3
deriving DecidableEq

namespace Ray

/-- Point at ray parameter `t` (`Ray::at`; `at` is a Lean keyword). -/
def pointAt (r : Ray) (t : ℝ) : Vec3 := r.origin + t • r.direction

end Ray

/-- Rust `Range<f32>` `start..stop` as used for the hit interval. -/
structure RangeF where
  start : ℝ
  stop : ℝ
deriving DecidableEq

/-- Rust `Range::contains`: `start ≤ t ∧ t < stop` (half-open). -/
def RangeF.containsF (r : RangeF) (t : ℝ) : Prop := r.start ≤ t ∧ t < r.stop

instance (r : RangeF) (t : ℝ) : Decidable (r.containsF t) := by
  unfold RangeF.containsF; infer_instance

/-- Containment for an optionally-NaN/infinite value: a `none` (NaN or ±∞
produced by a division by zero in the source) is never contained in a
half-open range with finite bounds, because every IEEE comparison against
NaN is false and `∞ < stop` / `start ≤ -∞` are false for finite bounds. -/
def RangeF.containsOpt (r : RangeF) : Option ℝ → Prop
  | none => False
  | some t => r.containsF t

/-- Division `x / y` in `f32`, as an `Option`: `none` models the NaN (`0/0`)
or ±∞ (`x/0`) result, either of which fails every range-containment test
downstream. -/
def divF (x y : ℝ) : Option ℝ := if y = 0 then none else some (x / y)

/-- Componentwise vector division by a scalar, `none` modelling the NaN/∞
components produced when the scalar is `0`. -/
def vdivF (v : Vec3) (s : ℝ) : Option Vec3 := if s = 0 then none else some (s⁻¹ • v)

/-- Machine epsilon of `f32` (`Float::EPSILON = 2⁻²³`). -/
def f32Eps : ℝ := 1 / 2 ^ 23

/-- IEEE-style `atan2 y x` (total; `atan2 0 0 = 0`). -/
def atan2F (y x : ℝ) : ℝ :=
  if 0 < x then Real.arctan (y / x)
  else if x < 0 then
    (if 0 ≤ y then Real.arctan (y / x) + π else Real.arctan (y / x) - π)
  else if 0 < y then π / 2
  else if y < 0 then -(π / 2)
  else 0

/-- `f32::acos`, `none` modelling the NaN returned outside `[-1, 1]`. -/
def acosF (x : ℝ) : Option ℝ := if x < -1 ∨ 1 < x then none else some (Real.arccos x)

/-- `f32::rem_euclid` for a positive modulus. -/
def remEuclid (a b : ℝ) : ℝ := a - b * ⌊a / b⌋

/-- Texture variants from `texture.rs`.  An image is abstracted to its
dimensions and an 8-bit pixel function (the `image` crate's decoded buffer). -/
inductive TextureEnum where
  | SolidColor (color : Vec3)
  | CheckerTexture (scaleInverted : ℝ) (even odd : TextureEnum)
  | ImageTexture (width height : ℕ) (pix : ℕ → ℕ → ℕ × ℕ × ℕ)

/-- Rust `as i32`/`as u32` casts of a nonnegative float: truncation toward
zero, which on nonnegative reals is the floor. -/
def truncNat (x : ℝ) : ℕ := (⌊x⌋).toNat

/-- `Texture::value` from `texture.rs`, by variant:
solid color; 3-D checker on floored scaled point coordinates (Rust `%`
agrees with `Int.emod` on the even/odd test); image lookup with the debug
red color outside `[0,1) × [0,1)` or for an empty image. -/
def TextureEnum.value : TextureEnum → ℝ → ℝ → Vec3 → Vec3
  | .SolidColor c, _, _, _ => c
  | .CheckerTexture si even odd, u, v, p =>
      let xInt : ℤ := ⌊si * p.x⌋
      let yInt : ℤ := ⌊si * p.y⌋
      let zInt : ℤ := ⌊si * p.z⌋
      if (xInt + yInt + zInt) % 2 = 0 then even.value u v p else odd.value u v p
  | .ImageTexture w h pix, u, v, _ =>
      if h = 0 ∨ w = 0 ∨ ¬(0 ≤ u ∧ u < 1) ∨ ¬(0 ≤ v ∧ v < 1) then ⟨1, 0, 0⟩
      else
        let u' := max 0 (min u 1)
        let v' := 1 - max 0 (min v 1)
        let i := truncNat (u' * (w - 1 : ℕ))
        let j := truncNat (v' * (h - 1 : ℕ))
        let p := pix i j
        (1 / 255 : ℝ) • (⟨p.1, p.2.1, p.2.2⟩ : Vec3)

/-- Material variants from `material.rs`. -/
inductive Material where
  | Lambertian (texture : TextureEnum)
  | Metal (texture : TextureEnum) (fuzz : Option ℝ)
  | Dielectric (refractive_index : ℝ) (fuzz : Option ℝ)

/-- Intersection record from `intersection.rs` (current iteration: a single
`uv : Vec2` field).  The material reference is embedded by value. -/
structure Intersection where
  point : Vec3
  normal : Vec3
  t : ℝ
  material : Material
  is_front_face : Bool
  uv : ℝ × ℝ

/-- `Intersection::is_front_face`: `dot(ray.direction, outward_normal) < 0`. -/
def Intersection.frontFaceTest (r : Ray) (outwardNormal : Vec3) : Prop :=
  Vec3.dot r.direction outwardNormal < 0

instance (r : Ray) (n : Vec3) : Decidable (Intersection.frontFaceTest r n) := by
  unfold Intersection.frontFaceTest; infer_instance

/-- Sphere from `hittable.rs` (`center`, `radius`, texture `front_direction`,
shared material; the BVH `node_index` plays no role in hit testing). -/
structure Sphere where
  center : Vec3
  radius : ℝ
  front_direction : Vec3
  material : Material

/-- `Sphere::new_facing`: clamps the radius to be nonnegative. -/
def Sphere.new_facing (center : Vec3) (radius : ℝ) (material : Material)
    (front_face : Vec3) : Sphere :=
  ⟨center, max radius 0, front_face, material⟩

/-- `Sphere::new`: a sphere facing the x-axis. -/
def Sphere.mk' (center : Vec3) (radius : ℝ) (material : Material) : Sphere :=
  Sphere.new_facing center radius material ⟨1, 0, 0⟩

/-- Rotation about the y-axis (nalgebra `from_euler_angles(0, θ, 0)`). -/
def rotY (θ : ℝ) (v : Vec3) : Vec3 :=
  ⟨Real.cos θ * v.x + Real.sin θ * v.z, v.y, -Real.sin θ * v.x + Real.cos θ * v.z⟩

/-- Rotation about the z-axis (nalgebra `from_euler_angles(0, 0, θ)`). -/
def rotZ (θ : ℝ) (v : Vec3) : Vec3 :=
  ⟨Real.cos θ * v.x - Real.sin θ * v.y, Real.sin θ * v.x + Real.cos θ * v.y, v.z⟩

/-- `to_unit_spherical`: `θ = acos(-z)` (NaN outside `[-1,1]`, propagated as
`none`), `φ = atan2(y, x) + π`. -/
def to_unit_spherical (p : Vec3) : Option ℝ × ℝ :=
  (acosF (-p.z), atan2F p.y p.x + π)

/-- `unit_sphere_uv` from `hittable.rs`: rotate the intersection point by
`Ry(pitch) · Rz(-yaw)`, convert to spherical coordinates, rotate the texture
by `rotation_rads` around its pole, and scale to `[0,1]²`.  A NaN `θ`
(so a NaN `v` component) is propagated as `none` for the whole UV pair,
matching the `is_nan` guard in `Sphere::hit`. -/
def unit_sphere_uv (p : Vec3) (pitch_rads yaw_rads rotation_rads : ℝ) :
    Option (ℝ × ℝ) :=
  let rotated := rotY pitch_rads (rotZ (-yaw_rads) p)
  match to_unit_spherical rotated with
  | (none, _) => none
  | (some θ, φ₀) =>
      let φ := remEuclid (φ₀ + rotation_rads) (2 * π)
      some (φ / (2 * π), θ / π)

/-- `unit_sphere_uv_facing`: pitch/yaw derived from the face direction. -/
def unit_sphere_uv_facing (p face_dir : Vec3) : Option (ℝ × ℝ) :=
  let pitch := atan2F face_dir.z (Real.sqrt (face_dir.y * face_dir.y + face_dir.x * face_dir.x))
  let yaw := atan2F face_dir.y face_dir.x
  unit_sphere_uv p pitch yaw 0

/-- Quadratic coefficient `a = |dir|²` of `Sphere::hit`. -/
def sphereA (r : Ray) : ℝ := Vec3.normSq r.direction

/-- The vector `oc = center - origin` of `Sphere::hit`. -/
def sphereOc (s : Sphere) (r : Ray) : Vec3 := s.center - r.origin

/-- Quadratic coefficient `h = dir · oc` of `Sphere::hit`. -/
def sphereH (s : Sphere) (r : Ray) : ℝ := Vec3.dot r.direction (sphereOc s r)

/-- Quadratic coefficient `c = |oc|² - r²` of `Sphere::hit`. -/
def sphereC (s : Sphere) (r : Ray) : ℝ :=
  Vec3.normSq (sphereOc s r) - s.radius * s.radius

/-- Discriminant `h² - a c` of `Sphere::hit`. -/
def sphereDisc (s : Sphere) (r : Ray) : ℝ :=
  sphereH s r * sphereH s r - sphereA r * sphereC s r

/-- Smaller quadratic root `(h - √disc)/a` (`none` = NaN/∞ when `a = 0`). -/
def sphereT1 (s : Sphere) (r : Ray) : Option ℝ :=
  divF (sphereH s r - Real.sqrt (sphereDisc s r)) (sphereA r)

/-- Larger quadratic root `(h + √disc)/a` (`none` = NaN/∞ when `a = 0`). -/
def sphereT2 (s : Sphere) (r : Ray) : Option ℝ :=
  divF (sphereH s r + Real.sqrt (sphereDisc s r)) (sphereA r)

/-- Root selection of `Sphere::hit`: reject a negative discriminant, prefer
the smaller root if it is in range, else the larger, else reject. -/
def sphereRoot (s : Sphere) (r : Ray) (rng : RangeF) : Option ℝ :=
  if sphereDisc s r < 0 then none
  else
    match sphereT1 s r with
    | some t =>
        if rng.containsF t then some t
        else
          match sphereT2 s r with
          | some t' => if rng.containsF t' then some t' else none
          | none => none
    | none =>
        match sphereT2 s r with
        | some t' => if rng.containsF t' then some t' else none
        | none => none

/-- Normal computation of `Sphere::hit` at parameter `t`: the outward normal
`(P - center)/radius` (NaN components, i.e. `none`, when `radius = 0`),
the front-face test on it, and the flip `normal = -normal` for back faces. -/
def sphereNormal (s : Sphere) (r : Ray) (t : ℝ) : Option (Vec3 × Bool) :=
  match vdivF (r.pointAt t - s.center) s.radius with
  | none => none
  | some n0 =>
      if Intersection.frontFaceTest r n0 then some (n0, true) else some (-n0, false)

/-- The UV pair `Sphere::hit` computes at parameter `t`; `none` is a NaN UV
(NaN normal from a zero radius, or `acos` out of domain). -/
def sphereUVat (s : Sphere) (r : Ray) (t : ℝ) : Option (ℝ × ℝ) :=
  match sphereNormal s r t with
  | none => none
  | some (n, _) => unit_sphere_uv_facing n s.front_direction

/-- `Sphere::hit` from `hittable.rs`: root selection, normal orientation,
UV computation with the NaN-UV guard (`return None` on a NaN component),
and construction of the intersection record. -/
def sphereHit (s : Sphere) (r : Ray) (rng : RangeF) : Option Intersection :=
  match sphereRoot s r rng with
  | none => none
  | some t =>
      match sphereNormal s r t with
      | none => none
      | some (n, ff) =>
          match unit_sphere_uv_facing n s.front_direction with
          | none => none
          | some uv => some ⟨r.pointAt t, n, t, s.material, ff, uv⟩

/-- Triangle from `hittable.rs`: vertices, per-vertex UV attributes, the
precomputed normal, and the shared material. -/
structure Triangle where
  a : Vec3
  b : Vec3
  c : Vec3
  uv_a : ℝ × ℝ
  uv_b : ℝ × ℝ
  uv_c : ℝ × ℝ
  normal : Vec3
  material : Material

/-- `Triangle::new_with_uv`: normal = `normalize(normalize(b-a) × normalize(c-a))`. -/
def Triangle.new_with_uv (a b c : Vec3) (uv_a uv_b uv_c : ℝ × ℝ)
    (material : Material) : Triangle :=
  ⟨a, b, c, uv_a, uv_b, uv_c,
    (Vec3.cross (Vec3.normalize (b - a)) (Vec3.normalize (c - a))).normalize, material⟩

/-- `Triangle::new`: default UV attributes `(0,0)`, `(1,0)`, `(0.5,1)`. -/
def Triangle.mk' (a b c : Vec3) (material : Material) : Triangle :=
  Triangle.new_with_uv a b c (0, 0) (1, 0) (1 / 2, 1) material

/-- Edge `a_to_b` of the Möller–Trumbore test. -/
def triAB (tri : Triangle) : Vec3 := tri.b - tri.a

/-- Edge `a_to_c` of the Möller–Trumbore test. -/
def triAC (tri : Triangle) : Vec3 := tri.c - tri.a

/-- `u_vec = dir × a_to_c`. -/
def triUvec (tri : Triangle) (r : Ray) : Vec3 := Vec3.cross r.direction (triAC tri)

/-- Möller–Trumbore determinant `det = a_to_b · u_vec`. -/
def triDet (tri : Triangle) (r : Ray) : ℝ := Vec3.dot (triAB tri) (triUvec tri r)

/-- `a_to_origin = origin - a`. -/
def triAO (tri : Triangle) (r : Ray) : Vec3 := r.origin - tri.a

/-- Barycentric parameter `u = (a_to_origin · u_vec) / det`. -/
def triU (tri : Triangle) (r : Ray) : ℝ :=
  Vec3.dot (triAO tri r) (triUvec tri r) * (1 / triDet tri r)

/-- `v_vec = a_to_origin × a_to_b`. -/
def triVvec (tri : Triangle) (r : Ray) : Vec3 := Vec3.cross (triAO tri r) (triAB tri)

/-- Barycentric parameter `v = (dir · v_vec) / det`. -/
def triV (tri : Triangle) (r : Ray) : ℝ :=
  Vec3.dot r.direction (triVvec tri r) * (1 / triDet tri r)

/-- Hit distance `dist = (a_to_c · v_vec) / det`. -/
def triDist (tri : Triangle) (r : Ray) : ℝ :=
  Vec3.dot (triAC tri) (triVvec tri r) * (1 / triDet tri r)

/-- The UV pair `Triangle::hit` stores: the barycentric parameters remapped
affinely into the bounding rectangle of the three vertex UV attributes. -/
def triUVmapped (tri : Triangle) (u v : ℝ) : ℝ × ℝ :=
  let left := min (min tri.uv_a.1 tri.uv_b.1) tri.uv_c.1
  let right := max (max tri.uv_a.1 tri.uv_b.1) tri.uv_c.1
  let bot := min (min tri.uv_a.2 tri.uv_b.2) tri.uv_c.2
  let top := max (max tri.uv_a.2 tri.uv_b.2) tri.uv_c.2
  (left + (right - left) * u, bot + (top - bot) * v)

/-- Modelled from the spec (for comparison in C8): true barycentric
interpolation of the three vertex UV attributes,
`(1-u-v)·uv_a + u·uv_b + v·uv_c`. -/
def triUVbarycentric (tri : Triangle) (u v : ℝ) : ℝ × ℝ :=
  ((1 - u - v) * tri.uv_a.1 + u * tri.uv_b.1 + v * tri.uv_c.1,
   (1 - u - v) * tri.uv_a.2 + u * tri.uv_b.2 + v * tri.uv_c.2)

/-- `Triangle::hit` (Möller–Trumbore) from `hittable.rs`: back-face culling
(`det < EPSILON`), barycentric containment tests, range test on the hit
distance, the extra `dist > EPSILON` test, and record construction. -/
def triangleHit (tri : Triangle) (r : Ray) (rng : RangeF) : Option Intersection :=
  if triDet tri r < f32Eps then none
  else if ¬(0 ≤ triU tri r ∧ triU tri r ≤ 1) then none
  else if triV tri r < 0 ∨ 1 < triU tri r + triV tri r then none
  else if ¬rng.containsF (triDist tri r) then none
  else if f32Eps < triDist tri r then
    some ⟨r.origin + triDist tri r • r.direction, tri.normal, triDist tri r,
          tri.material,
          if Vec3.dot r.direction tri.normal ≤ 0 then true else false,
          triUVmapped tri (triU tri r) (triV tri r)⟩
  else none

/-- Shape variant type from `hittable.rs`. -/
inductive Shape where
  | sphere (s : Sphere)
  | triangle (t : Triangle)

/-- `Shape::hit` dispatch (`enum_dispatch`). -/
def Shape.hitS : Shape → Ray → RangeF → Option Intersection
  | .sphere s, r, rng => sphereHit s r rng
  | .triangle t, r, rng => triangleHit t r rng

/-- `impl Hit for World` from `hittable.rs`, with the shapes delivered in a
given traversal `order`.  Modelled from the spec: the `bvh` crate's
`nearest_traverse_iterator` is external to this repository; per the spec the
traversal visits the primitives in some order (any order that can only skip
primitives the ray misses), so it is modelled as an arbitrary permutation of
the scene's shapes.  The fold keeps the nearest hit so far and shrinks the
top of the query range to its `t`. -/
def worldHitFold (order : List Shape) (r : Ray) (rng : RangeF) : Option Intersection :=
  order.foldl
    (fun acc sh =>
      match Shape.hitS sh r ⟨rng.start, match acc with | some i => i.t | none => rng.stop⟩ with
      | some i => some i
      | none => acc)
    none

/-- Brute-force nearest hit (the claims' reference semantics): call
`Shape::hit` on every shape with the full range and keep the minimal `t`. -/
def bruteNearest (shapes : List Shape) (r : Ray) (rng : RangeF) : Option Intersection :=
  shapes.foldl
    (fun acc sh =>
      match Shape.hitS sh r rng with
      | some i =>
          match acc with
          | none => some i
          | some j => if i.t < j.t then some i else acc
      | none => acc)
    none

/-- Skybox gradient of `Camera::raycast`:
`(1-a)·(1,1,1) + a·(0.5,0.7,1.0)` with `a = (unit_y + 1)/2`. -/
def skyColor (d : Vec3) : Vec3 :=
  let unitDir := d.normalize
  let a := (unitDir.y + 1) / 2
  (1 - a) • Vec3.ONE + a • (⟨1 / 2, 7 / 10, 1⟩ : Vec3)

/-- `reflect` from `material.rs`: `d - 2 (d·n) n`. -/
def reflect (incoming surfaceNormal : Vec3) : Vec3 :=
  incoming - (2 * Vec3.dot incoming surfaceNormal) • surfaceNormal

/-- `refract` from `material.rs` (Snell), expecting a unit incoming vector. -/
def refract (incoming surfaceNormal : Vec3) (refractiveRatio : ℝ) : Vec3 :=
  let cosTheta := min (-(Vec3.dot incoming surfaceNormal)) 1
  let rOutPerp := refractiveRatio • (incoming + cosTheta • surfaceNormal)
  let x := -Real.sqrt |1 - Vec3.normSq rOutPerp|
  x • surfaceNormal + rOutPerp

/-- Schlick's approximation (`reflectance` in `material.rs`). -/
def reflectanceF (cosine refractive_index : ℝ) : ℝ :=
  let r0 := (1 - refractive_index) / (1 + refractive_index)
  let r0sq := r0 * r0
  r0sq + (1 - r0sq) * (1 - cosine) ^ 5

/-- `Vec3Ext::near_zero`: every component below `√EPSILON` in magnitude. -/
def nearZero (v : Vec3) : Prop :=
  |v.x| < Real.sqrt f32Eps ∧ |v.y| < Real.sqrt f32Eps ∧ |v.z| < Real.sqrt f32Eps

instance (v : Vec3) : Decidable (nearZero v) := by
  unfold nearZero; infer_instance

/-- One scattering call's worth of thread-local randomness, passed
explicitly: the sampled unit vector, the uniform `noise` draw of the
dielectric, and a roulette draw consumed only by the spec-modelled
Russian-roulette integrator (the source integrator draws no such number). -/
structure RandomDraw where
  unitVec : Vec3
  noise : ℝ
  kill : ℝ

/-- `Scatter::scatter` from `material.rs` for the three material variants,
with the thread-local random values passed explicitly. -/
def scatterM (m : Material) (ray_in : Ray) (rec : Intersection) (d : RandomDraw) :
    Option (Vec3 × Ray) :=
  match m with
  | .Metal tex fz =>
      let reflected :=
        match fz with
        | some f => reflect ray_in.direction rec.normal + f • d.unitVec
        | none => reflect ray_in.direction rec.normal
      some (tex.value rec.uv.1 rec.uv.2 rec.point, ⟨rec.point, reflected⟩)
  | .Lambertian tex =>
      let sd := rec.normal + d.unitVec
      let sd := if nearZero sd then rec.normal else sd
      some (tex.value rec.uv.1 rec.uv.2 rec.point, ⟨rec.point, sd⟩)
  | .Dielectric ri fz =>
      let ri' := if rec.is_front_face then 1 / ri else ri
      let unitIn := ray_in.direction.normalize
      let cosTheta := min (-(Vec3.dot unitIn rec.normal)) 1
      let sinTheta := Real.sqrt (1 - cosTheta * cosTheta)
      let cannotRefract := 1 < ri' * sinTheta
      let dir :=
        if cannotRefract ∨ d.noise < reflectanceF cosTheta ri' then
          reflect unitIn rec.normal
        else
          match fz with
          | some f => refract unitIn rec.normal ri' + f • d.unitVec
          | none => refract unitIn rec.normal ri'
      some (Vec3.ONE, ⟨rec.point, dir.normalize⟩)

/-- `Camera::raycast` from `camera.rs`: nearest world hit on
`0.001..t_range.end`, scatter, recurse while the depth budget lasts
(returning black at the bounce limit and on absorption), sky gradient on a
miss.  The per-bounce random draws are passed as an explicit stream. -/
def raycastF (tmax : ℝ) (shapes : List Shape) : ℕ → Ray → (ℕ → RandomDraw) → Vec3
  | 0, r, σ =>
      match worldHitFold shapes r ⟨0.001, tmax⟩ with
      | some hit =>
          match scatterM hit.material r hit (σ 0) with
          | some _ => ⟨0, 0, 0⟩
          | none => ⟨0, 0, 0⟩
      | none => skyColor r.direction
  | (d + 1), r, σ =>
      match worldHitFold shapes r ⟨0.001, tmax⟩ with
      | some hit =>
          match scatterM hit.material r hit (σ 0) with
          | some (att, sc) =>
              att.componentMul (raycastF tmax shapes d sc (fun i => σ (i + 1)))
          | none => ⟨0, 0, 0⟩
      | none => skyColor r.direction

/-- Maximum color channel. -/
def maxChannel (v : Vec3) : ℝ := max v.x (max v.y v.z)

/-- Modelled from the spec: the Russian-roulette path integrator the spec
describes (no such code exists in the source).  Past a warm-up number of
bounces `warmup`, the path continues with probability
`p = max-channel(accumulated attenuation)` — decided against the explicit
roulette draw — and a surviving contribution is rescaled by `1/p`; a killed
path terminates with zero contribution.  Before the warm-up it behaves like
the source integrator. -/
def raycastSpecRR (tmax : ℝ) (shapes : List Shape) (warmup : ℕ) :
    ℕ → ℕ → Vec3 → Ray → (ℕ → RandomDraw) → Vec3
  | 0, _, _, r, σ =>
      match worldHitFold shapes r ⟨0.001, tmax⟩ with
      | some hit =>
          match scatterM hit.material r hit (σ 0) with
          | some _ => ⟨0, 0, 0⟩
          | none => ⟨0, 0, 0⟩
      | none => skyColor r.direction
  | (d + 1), b, accum, r, σ =>
      match worldHitFold shapes r ⟨0.001, tmax⟩ with
      | some hit =>
          match scatterM hit.material r hit (σ 0) with
          | some (att, sc) =>
              let accum' := accum.componentMul att
              if warmup ≤ b then
                let p := maxChannel accum'
                if (σ 0).kill < p then
                  (1 / p) •
                    att.componentMul
                      (raycastSpecRR tmax shapes warmup d (b + 1) accum' sc (fun i => σ (i + 1)))
                else ⟨0, 0, 0⟩
              else
                att.componentMul
                  (raycastSpecRR tmax shapes warmup d (b + 1) accum' sc (fun i => σ (i + 1)))
          | none => ⟨0, 0, 0⟩
      | none => skyColor r.direction

/-- Claim C4 as stated: for some warm-up depth, the source integrator
coincides with the spec's Russian-roulette integrator on every scene, ray,
depth budget and random stream. -/
def ClaimC4RR : Prop :=
  ∃ warmup : ℕ, ∀ (tmax : ℝ) (shapes : List Shape) (d : ℕ) (r : Ray)
    (σ : ℕ → RandomDraw),
    raycastF tmax shapes d r σ = raycastSpecRR tmax shapes warmup d 0 Vec3.ONE r σ

/-- Per-pass estimate: the arithmetic mean of the pass's samples
(`render_pixel` divides the sample sum by the sample count). -/
def passEstimateQ (pass : List ℚ) : ℚ := pass.sum / pass.length

/-- One pass-blend step from `render_thread` (`main.rs` / `window.rs`):
`combined = new · (n/total) + old · (1 - n/total)`. -/
def blendStepQ (old estimate : ℚ) (numSamples totalSamples : ℕ) : ℚ :=
  estimate * ((numSamples : ℚ) / (totalSamples : ℚ)) +
    old * (1 - (numSamples : ℚ) / (totalSamples : ℚ))

/-- Folding the pass blend over a list of passes, starting from the initial
buffer contents `init` (the source buffer starts at `0xff`), carrying the
running total sample count exactly as `num_samples_total` does. -/
def blendFoldQ (init : ℚ) (passes : List (List ℚ)) : ℚ × ℕ :=
  passes.foldl
    (fun st pass =>
      let total := st.2 + pass.length
      (blendStepQ st.1 (passEstimateQ pass) pass.length total, total))
    (init, 0)

/-- Modelled from the spec: `linear_to_gamma` is imported from `camera.rs`
by `vec3_ext.rs`/`vec3.rs` but its definition is missing from the sources;
the accumulation comment in `main.rs` documents the gamma encoding as
`c ↦ √c` ("Using a gamma color space with c <- sqrt(c)"). -/
def linear_to_gamma (x : ℝ) : ℝ := Real.sqrt x

/-- `f32::round` (half away from zero) followed by Rust's saturating
`as u8` cast, for the nonnegative values produced by gamma encoding. -/
def gammaQuantize (x : ℝ) : ℕ :=
  Int.toNat (min (⌊linear_to_gamma x * (255999 / 1000 : ℝ) + 1 / 2⌋) 255)

/-- `Vec3Ext::as_rgb` from `vec3_ext.rs`: panic (modelled as `Except.error`)
when any channel leaves `[0,1]`, otherwise the gamma-encoded, quantized
8-bit triple.  Nothing is clamped before the range test. -/
def as_rgb (v : Vec3) : Except String (ℕ × ℕ × ℕ) :=
  if ¬(0 ≤ v.x ∧ v.x ≤ 1) then .error "Bad color value for red/x"
  else if ¬(0 ≤ v.y ∧ v.y ≤ 1) then .error "Bad color value for green/y"
  else if ¬(0 ≤ v.z ∧ v.z ≤ 1) then .error "Bad color value for blue/z"
  else .ok (gammaQuantize v.x, gammaQuantize v.y, gammaQuantize v.z)

/-- Solid half-gray Lambertian used by the concrete scenes below. -/
def matGray : Material := .Lambertian (.SolidColor ⟨1 / 2, 1 / 2, 1 / 2⟩)

/-- Query range `0.001..100` used by the concrete evaluations. -/
def rngMain : RangeF := ⟨1 / 1000, 100⟩

/-- Unit sphere at the origin, hit tangentially by `rayTangent`. -/
def sphereTangent : Sphere := Sphere.mk' ⟨0, 0, 0⟩ 1 matGray

/-- Ray grazing `sphereTangent` (discriminant exactly zero). -/
def rayTangent : Ray := ⟨⟨-2, 1, 0⟩, ⟨1, 0, 0⟩⟩

/-- Zero-radius sphere (radius clamped by `Sphere::new`). -/
def sphereZero : Sphere := Sphere.mk' ⟨0, 0, 0⟩ 0 matGray

/-- Ray pointing straight through the center of `sphereZero`. -/
def rayZero : Ray := ⟨⟨0, 0, -2⟩, ⟨0, 0, 1⟩⟩

/-- Triangle in the plane `z = 2⁻²⁴`, facing `rayDistEps`. -/
def triDistEps : Triangle :=
  Triangle.mk' ⟨0, 0, 1 / 2 ^ 24⟩ ⟨0, 1, 1 / 2 ^ 24⟩ ⟨1, 0, 1 / 2 ^ 24⟩ matGray

/-- Ray from the origin along `+z`, hitting `triDistEps` at distance `2⁻²⁴`. -/
def rayDistEps : Ray := ⟨⟨0, 0, 0⟩, ⟨0, 0, 1⟩⟩

/-- Range `0..1`: it contains the distance `2⁻²⁴ < EPSILON`. -/
def rngZeroOne : RangeF := ⟨0, 1⟩

/-- Triangle in the plane `z = 1` with the default UV attributes. -/
def triPlane : Triangle := Triangle.mk' ⟨0, 0, 1⟩ ⟨0, 1, 1⟩ ⟨1, 0, 1⟩ matGray

/-- Ray hitting `triPlane` with barycentric parameters `u = v = 1/4`. -/
def rayQuarter : Ray := ⟨⟨1 / 4, 1 / 4, 0⟩, ⟨0, 0, 1⟩⟩

/-- Upper sphere of the two-sphere corridor scene. -/
def sphereTop : Sphere := Sphere.mk' ⟨0, 0, 2⟩ 1 matGray

/-- Lower sphere of the two-sphere corridor scene. -/
def sphereBot : Sphere := Sphere.mk' ⟨0, 0, -2⟩ 1 matGray

/-- The two-sphere corridor scene. -/
def corridorShapes : List Shape := [.sphere sphereTop, .sphere sphereBot]

/-- Primary ray of the corridor scene: from the origin toward `+z`, hitting
`sphereTop` at `t = 1`. -/
def rayPrimary : Ray := ⟨⟨0, 0, 0⟩, ⟨0, 0, 1⟩⟩

/-- Ray leaving the top hit point downward (a Lambertian bounce). -/
def rayDown : Ray := ⟨⟨0, 0, 1⟩, ⟨0, 0, -2⟩⟩

/-- Ray leaving the bottom hit point upward (a Lambertian bounce). -/
def rayUp : Ray := ⟨⟨0, 0, -1⟩, ⟨0, 0, 2⟩⟩

/-- Escape ray leaving the top hit point sideways (`unit_y = 0`). -/
def rayEscTop : Ray := ⟨⟨0, 0, 1⟩, ⟨1, 0, -1⟩⟩

/-- Escape ray leaving the bottom hit point sideways (`unit_y = 0`). -/
def rayEscBot : Ray := ⟨⟨0, 0, -1⟩, ⟨1, 0, 1⟩⟩

/-- A draw with the given scattering unit vector, and a roulette draw of `1`
(the draw that kills with certainty whenever the survival probability is at
most one). -/
def drawOf (v : Vec3) : RandomDraw := ⟨v, 0, 1⟩

/-- Draw stream for a path currently at the top sphere: `m` further bounces
down/up through the corridor, then the sideways escape draw. -/
def topDraws (m : ℕ) : ℕ → RandomDraw := fun i =>
  if i < m then (if i % 2 = 0 then drawOf ⟨0, 0, -1⟩ else drawOf ⟨0, 0, 1⟩)
  else drawOf ⟨1, 0, 0⟩

/-- Draw stream for a path currently at the bottom sphere. -/
def botDraws (m : ℕ) : ℕ → RandomDraw := fun i =>
  if i < m then (if i % 2 = 0 then drawOf ⟨0, 0, 1⟩ else drawOf ⟨0, 0, -1⟩)
  else drawOf ⟨1, 0, 0⟩

/-- Sky value of both escape directions in the corridor scene (`unit_y = 0`). -/
def skyEscape : Vec3 := ⟨3 / 4, 17 / 20, 1⟩

/-- The intersection record `Triangle::hit` constructs when every test
passes (its fields do not depend on the query range). -/
def triRecord (tri : Triangle) (r : Ray) : Intersection :=
  ⟨r.origin + triDist tri r • r.direction, tri.normal, triDist tri r,
    tri.material,
    if Vec3.dot r.direction tri.normal ≤ 0 then true else false,
    triUVmapped tri (triU tri r) (triV tri r)⟩

/-- Minimum of two optional hit distances (`none` = no hit yet). -/
def minOpt : Option ℝ → Option ℝ → Option ℝ
  | none, y => y
  | some a, none => some a
  | some a, some b => some (min a b)

/-- The conjunction of every test `Triangle::hit` performs before
constructing a record. -/
def triCond (tri : Triangle) (r : Ray) (rng : RangeF) : Prop :=
  f32Eps ≤ triDet tri r ∧ 0 ≤ triU tri r ∧ triU tri r ≤ 1 ∧
    0 ≤ triV tri r ∧ triU tri r + triV tri r ≤ 1 ∧
    rng.containsF (triDist tri r) ∧ f32Eps < triDist tri r

instance (tri : Triangle) (r : Ray) (rng : RangeF) : Decidable (triCond tri r rng) := by
  unfold triCond; infer_instance

/-- One step of the `World::hit` fold, with the range top narrowed to the
nearest hit so far. -/
def worldStep (r : Ray) (st e : ℝ) : Option Intersection → Shape → Option Intersection :=
  fun acc sh =>
    match Shape.hitS sh r ⟨st, match acc with | some i => i.t | none => e⟩ with
    | some i => some i
    | none => acc

/-- One step of the brute-force nearest fold (full range, keep minimal `t`). -/
def bruteStep (r : Ray) (rng : RangeF) : Option Intersection → Shape → Option Intersection :=
  fun acc sh =>
    match Shape.hitS sh r rng with
    | some i =>
        match acc with
        | none => some i
        | some j => if i.t < j.t then some i else acc
    | none => acc

end

section Theorems

open Vec3

open Real

@[simp] theorem Vec3.add_mk (x1 y1 z1 x2 y2 z2 : ℝ) :
    (⟨x1, y1, z1⟩ + ⟨x2, y2, z2⟩ : Vec3) = ⟨x1 + x2, y1 + y2, z1 + z2⟩ := rfl

@[simp] theorem Vec3.sub_mk (x1 y1 z1 x2 y2 z2 : ℝ) :
    (⟨x1, y1, z1⟩ - ⟨x2, y2, z2⟩ : Vec3) = ⟨x1 - x2, y1 - y2, z1 - z2⟩ := rfl

@[simp] theorem Vec3.neg_mk (x y z : ℝ) :
    (-(⟨x, y, z⟩ : Vec3)) = ⟨-x, -y, -z⟩ := rfl

@[simp] theorem Vec3.smul_mk (s x y z : ℝ) :
    (s • (⟨x, y, z⟩ : Vec3)) = ⟨s * x, s * y, s * z⟩ := rfl

@[simp] theorem Vec3.dot_mk (x1 y1 z1 x2 y2 z2 : ℝ) :
    Vec3.dot ⟨x1, y1, z1⟩ ⟨x2, y2, z2⟩ = x1 * x2 + y1 * y2 + z1 * z2 := rfl

@[simp] theorem Vec3.cross_mk (x1 y1 z1 x2 y2 z2 : ℝ) :
    Vec3.cross ⟨x1, y1, z1⟩ ⟨x2, y2, z2⟩ =
      ⟨y1 * z2 - z1 * y2, z1 * x2 - x1 * z2, x1 * y2 - y1 * x2⟩ := rfl

@[simp] theorem Vec3.normSq_mk (x y z : ℝ) :
    Vec3.normSq ⟨x, y, z⟩ = x * x + y * y + z * z := rfl

@[simp] theorem Vec3.componentMul_mk (x1 y1 z1 x2 y2 z2 : ℝ) :
    Vec3.componentMul ⟨x1, y1, z1⟩ ⟨x2, y2, z2⟩ = ⟨x1 * x2, y1 * y2, z1 * z2⟩ := rfl

@[simp] theorem Vec3.mk_eq_iff (x1 y1 z1 x2 y2 z2 : ℝ) :
    (⟨x1, y1, z1⟩ : Vec3) = ⟨x2, y2, z2⟩ ↔ x1 = x2 ∧ y1 = y2 ∧ z1 = z2 := by
  constructor
  · intro h; injection h with h1 h2 h3; exact ⟨h1, h2, h3⟩
  · rintro ⟨h1, h2, h3⟩; rw [h1, h2, h3]

@[simp] theorem Ray.pointAt_mk (ox oy oz dx dy dz t : ℝ) :
    (Ray.mk ⟨ox, oy, oz⟩ ⟨dx, dy, dz⟩).pointAt t =
      ⟨ox + t * dx, oy + t * dy, oz + t * dz⟩ := rfl

theorem Vec3.zero_def : (0 : Vec3) = ⟨0, 0, 0⟩ := rfl

theorem blend_foldl_invariant (passes : List (List ℚ)) :
    ∀ (acc : ℚ) (T : ℕ), (∀ p ∈ passes, p ≠ []) →
      (passes.foldl
          (fun st pass =>
            (blendStepQ st.1 (passEstimateQ pass) pass.length (st.2 + pass.length),
              st.2 + pass.length))
          (acc, T)).2 = T + (passes.map List.length).sum ∧
      (passes.foldl
          (fun st pass =>
            (blendStepQ st.1 (passEstimateQ pass) pass.length (st.2 + pass.length),
              st.2 + pass.length))
          (acc, T)).1 * ((T + (passes.map List.length).sum : ℕ) : ℚ)
        = acc * (T : ℚ) + (passes.flatten).sum := by
  induction passes with
  | nil => intro acc T _; simp
  | cons p ps ih =>
      intro acc T h
      have hp : p ≠ [] := h p (List.mem_cons_self p ps)
      have hps : ∀ q ∈ ps, q ≠ [] := fun q hq => h q (List.mem_cons_of_mem p hq)
      have hplen : 0 < p.length := List.length_pos.mpr hp
      have hn : (p.length : ℚ) ≠ 0 := by exact_mod_cast hplen.ne'
      have hT' : ((T + p.length : ℕ) : ℚ) ≠ 0 := by
        have h0 : T + p.length ≠ 0 := by omega
        exact_mod_cast h0
      obtain ⟨ih2, ih1⟩ := ih (blendStepQ acc (passEstimateQ p) p.length (T + p.length))
        (T + p.length) hps
      have hstep :
          blendStepQ acc (passEstimateQ p) p.length (T + p.length) *
            ((T + p.length : ℕ) : ℚ) = acc * (T : ℚ) + p.sum := by
        unfold blendStepQ passEstimateQ
        push_cast
        field_simp
        ring
      constructor
      · simpa [Nat.add_assoc] using ih2
      · have hcast : T + ((p :: ps).map List.length).sum
            = (T + p.length) + (ps.map List.length).sum := by
          simp [Nat.add_assoc]
        rw [List.foldl_cons]
        rw [show ((p :: ps).map List.length).sum = p.length + (ps.map List.length).sum by simp]
        rw [show (T + (p.length + (ps.map List.length).sum) : ℕ)
              = ((T + p.length) + (ps.map List.length).sum : ℕ) by omega]
        rw [ih1, hstep]
        simp only [List.flatten_cons, List.sum_append]
        ring

/-- C5: folding the per-pass blend (new estimate weighted
`new_samples / total_samples_so_far`, prior value weighted by the
complement) over any sequence of passes yields the arithmetic mean of all
samples taken so far, independently of the initial buffer contents; in
particular two passes blend to the same value as the single concatenated
pass. -/
theorem C5_pass_blend_is_mean (init : ℚ) (passes : List (List ℚ))
    (hne : passes ≠ []) (hp : ∀ p ∈ passes, p ≠ []) :
    (blendFoldQ init passes).1 = (passes.flatten).sum / ((passes.flatten).length : ℚ) ∧
    ∀ (initA initB : ℚ) (a b : List ℚ), a ≠ [] → b ≠ [] →
      (blendFoldQ initA [a, b]).1 = (blendFoldQ initB [a ++ b]).1 := by
  have main : ∀ (i : ℚ) (ps : List (List ℚ)), ps ≠ [] → (∀ p ∈ ps, p ≠ []) →
      (blendFoldQ i ps).1 = (ps.flatten).sum / ((ps.flatten).length : ℚ) := by
    intro i ps hne hp
    obtain ⟨h2, h1⟩ := blend_foldl_invariant ps i 0 hp
    have hlen : ((ps.flatten).length : ℚ) = (((ps.map List.length).sum : ℕ) : ℚ) := by
      rw [List.length_flatten]
    have hpos : 0 < (ps.map List.length).sum := by
      cases ps with
      | nil => exact absurd rfl hne
      | cons q qs =>
          have : 0 < q.length := List.length_pos.mpr (hp q (List.mem_cons_self q qs))
          simp only [List.map_cons, List.sum_cons]
          omega
    have hlq : (((ps.map List.length).sum : ℕ) : ℚ) ≠ 0 := by
      exact_mod_cast hpos.ne'
    have h1' : (blendFoldQ i ps).1 * (((ps.map List.length).sum : ℕ) : ℚ)
        = (ps.flatten).sum := by
      have h0 := h1
      rw [Nat.zero_add] at h0
      simpa [blendFoldQ] using h0
    rw [hlen, eq_div_iff hlq]
    exact h1'
  refine ⟨main init passes hne hp, ?_⟩
  intro iA iB a b ha hb
  have h1 := main iA [a, b] (by simp) (by
    intro p hp'
    simp only [List.mem_cons, List.not_mem_nil, or_false] at hp'
    rcases hp' with h | h <;> subst h <;> assumption)
  have h2 := main iB [a ++ b] (by simp) (by
    intro p hp'
    simp only [List.mem_cons, List.not_mem_nil, or_false] at hp'
    subst hp'
    intro hcon
    exact ha (List.append_eq_nil.mp hcon).1)
  rw [h1, h2]
  simp

/-- C5 witness: a concrete two-pass blend equals the overall mean. -/
theorem C5_pass_blend_is_mean_witness :
    (blendFoldQ 1 [[1, 2, 3, 5], [2, 4, 6, 8]]).1 =
      (([[1, 2, 3, 5], [2, 4, 6, 8]] : List (List ℚ)).flatten).sum /
        ((([[1, 2, 3, 5], [2, 4, 6, 8]] : List (List ℚ)).flatten).length : ℚ) :=
  (C5_pass_blend_is_mean 1 [[1, 2, 3, 5], [2, 4, 6, 8]] (by simp)
    (by intro p hp'; fin_cases hp' <;> simp)).1

/-- C9: `as_rgb` fails loudly (panic, modelled as an error) exactly when a
channel leaves `[0,1]`, and otherwise returns the gamma-encoded quantized
triple; nothing is clamped before the range test. -/
theorem C9_as_rgb_range_check (v : Vec3) :
    (((0 ≤ v.x ∧ v.x ≤ 1) ∧ (0 ≤ v.y ∧ v.y ≤ 1) ∧ (0 ≤ v.z ∧ v.z ≤ 1)) →
      as_rgb v = .ok (gammaQuantize v.x, gammaQuantize v.y, gammaQuantize v.z)) ∧
    (¬((0 ≤ v.x ∧ v.x ≤ 1) ∧ (0 ≤ v.y ∧ v.y ≤ 1) ∧ (0 ≤ v.z ∧ v.z ≤ 1)) →
      ∃ msg, as_rgb v = .error msg) := by
  constructor
  · rintro ⟨hx, hy, hz⟩
    unfold as_rgb
    rw [if_neg (by simpa using hx), if_neg (by simpa using hy),
        if_neg (by simpa using hz)]
  · intro h
    unfold as_rgb
    by_cases hx : 0 ≤ v.x ∧ v.x ≤ 1
    · by_cases hy : 0 ≤ v.y ∧ v.y ≤ 1
      · by_cases hz : 0 ≤ v.z ∧ v.z ≤ 1
        · exact absurd ⟨hx, hy, hz⟩ h
        · exact ⟨_, by rw [if_neg (by simpa using hx), if_neg (by simpa using hy),
            if_pos hz]⟩
      · exact ⟨_, by rw [if_neg (by simpa using hx), if_pos hy]⟩
    · exact ⟨_, by rw [if_pos hx]⟩

/-- C9 witness: the in-range color `(1/4, 1, 0)` encodes without panicking
to the gamma-quantized triple `(128, 255, 0)`. -/
theorem C9_as_rgb_range_check_witness :
    as_rgb ⟨1 / 4, 1, 0⟩ = .ok (128, 255, 0) := by
  have h := (C9_as_rgb_range_check ⟨1 / 4, 1, 0⟩).1 (by norm_num)
  rw [h]
  have h4 : Real.sqrt (1 / 4) = 1 / 2 := by
    rw [show (1 / 4 : ℝ) = (1 / 2) ^ 2 by norm_num, Real.sqrt_sq (by norm_num)]
  have e1 : gammaQuantize (1 / 4) = 128 := by
    unfold gammaQuantize linear_to_gamma
    rw [h4]
    norm_num
    rfl
  have e2 : gammaQuantize 1 = 255 := by
    unfold gammaQuantize linear_to_gamma
    rw [Real.sqrt_one]
    norm_num
    rfl
  have e3 : gammaQuantize 0 = 0 := by
    unfold gammaQuantize linear_to_gamma
    rw [Real.sqrt_zero]
    norm_num
  rw [e1, e2, e3]

/-- C10: every material variant's `scatter` returns `Some` attenuation and
scattered ray for every incident ray, intersection record and random draw;
no material signals absorption. -/
theorem C10_scatter_always_some (m : Material) (ray_in : Ray) (rec : Intersection)
    (d : RandomDraw) : (scatterM m ray_in rec d).isSome := by
  cases m <;> simp [scatterM]

/-- C3 (amended): `Triangle::hit` returns a hit exactly when the
Möller–Trumbore determinant is at least `EPSILON`, the barycentric
parameters satisfy `0 ≤ u ≤ 1`, `0 ≤ v`, `u + v ≤ 1`, the hit distance lies
in `t_range`, and — in addition to what the claim states — the hit distance
itself exceeds `EPSILON`. -/
theorem C3_triangle_hit_iff (tri : Triangle) (r : Ray) (rng : RangeF) :
    (triangleHit tri r rng).isSome ↔
      (f32Eps ≤ triDet tri r ∧ 0 ≤ triU tri r ∧ triU tri r ≤ 1 ∧
        0 ≤ triV tri r ∧ triU tri r + triV tri r ≤ 1 ∧
        rng.containsF (triDist tri r) ∧ f32Eps < triDist tri r) := by
  unfold triangleHit
  rcases lt_or_le (triDet tri r) f32Eps with h1 | h1
  · rw [if_pos h1]
    simp only [Option.isSome_none, Bool.false_eq_true, false_iff]
    rintro ⟨hge, -⟩
    linarith
  · rw [if_neg (not_lt.mpr h1)]
    by_cases h2 : 0 ≤ triU tri r ∧ triU tri r ≤ 1
    · rw [if_neg (not_not_intro h2)]
      by_cases h3 : triV tri r < 0 ∨ 1 < triU tri r + triV tri r
      · rw [if_pos h3]
        simp only [Option.isSome_none, Bool.false_eq_true, false_iff]
        rintro ⟨-, -, -, hv, hsum, -⟩
        rcases h3 with h | h <;> linarith
      · rw [if_neg h3]
        push_neg at h3
        by_cases h4 : rng.containsF (triDist tri r)
        · rw [if_neg (not_not_intro h4)]
          by_cases h5 : f32Eps < triDist tri r
          · rw [if_pos h5]
            simp only [Option.isSome_some, true_iff]
            exact ⟨h1, h2.1, h2.2, h3.1, h3.2, h4, h5⟩
          · rw [if_neg h5]
            simp only [Option.isSome_none, Bool.false_eq_true, false_iff]
            rintro ⟨-, -, -, -, -, -, hd⟩
            exact h5 hd
        · rw [if_pos h4]
          simp only [Option.isSome_none, Bool.false_eq_true, false_iff]
          rintro ⟨-, -, -, -, -, hc, -⟩
          exact h4 hc
    · rw [if_pos h2]
      simp only [Option.isSome_none, Bool.false_eq_true, false_iff]
      rintro ⟨-, hu0, hu1, -⟩
      exact h2 ⟨hu0, hu1⟩

/-- C3 counterexample: for the triangle in the plane `z = 2⁻²⁴` and the ray
from the origin, every condition of the claim holds (determinant `1 ≥ ε`,
`u = v = 0` inside the containment bounds, distance `2⁻²⁴` inside the range
`0..1`), yet `Triangle::hit` returns `None`, because of the additional
`dist > EPSILON` test the claim omits. -/
theorem C3_counterexample :
    f32Eps ≤ triDet triDistEps rayDistEps ∧
    triU triDistEps rayDistEps = 0 ∧
    triV triDistEps rayDistEps = 0 ∧
    triDist triDistEps rayDistEps = 1 / 2 ^ 24 ∧
    rngZeroOne.containsF (triDist triDistEps rayDistEps) ∧
    triangleHit triDistEps rayDistEps rngZeroOne = none := by
  have edet : triDet triDistEps rayDistEps = 1 := by
    simp [triDet, triUvec, triAB, triAC, triDistEps, rayDistEps, Triangle.mk',
      Triangle.new_with_uv]
  have eu : triU triDistEps rayDistEps = 0 := by
    simp [triU, triAO, triUvec, triAC, triDet, triAB, triDistEps, rayDistEps,
      Triangle.mk', Triangle.new_with_uv]
  have ev : triV triDistEps rayDistEps = 0 := by
    simp [triV, triVvec, triAO, triAB, triDet, triUvec, triAC, triDistEps,
      rayDistEps, Triangle.mk', Triangle.new_with_uv]
  have ed : triDist triDistEps rayDistEps = 1 / 2 ^ 24 := by
    simp [triDist, triVvec, triAO, triAB, triAC, triDet, triUvec, triDistEps,
      rayDistEps, Triangle.mk', Triangle.new_with_uv]
  refine ⟨?_, eu, ev, ed, ?_, ?_⟩
  · rw [edet]; unfold f32Eps; norm_num
  · rw [ed]; unfold rngZeroOne RangeF.containsF; norm_num
  · unfold triangleHit
    rw [edet, eu, ev, ed]
    rw [if_neg (by unfold f32Eps; norm_num)]
    rw [if_neg (by norm_num)]
    rw [if_neg (by norm_num)]
    rw [if_neg (by unfold rngZeroOne RangeF.containsF; norm_num)]
    rw [if_neg (by unfold f32Eps; norm_num)]

/-- C8 (amended): the UV pair stored in a triangle intersection is the
affine remap of the barycentric parameters `(u, v)` into the bounding
rectangle of the three vertex UV attributes
(`(left + width·u, bottom + height·v)`), not their barycentric
interpolation. -/
theorem C8_triangle_uv_remap (tri : Triangle) (r : Ray) (rng : RangeF)
    (i : Intersection) (h : triangleHit tri r rng = some i) :
    i.uv = triUVmapped tri (triU tri r) (triV tri r) := by
  unfold triangleHit at h
  split at h
  · exact absurd h (by simp)
  · split at h
    · exact absurd h (by simp)
    · split at h
      · exact absurd h (by simp)
      · split at h
        · exact absurd h (by simp)
        · split at h
          · injection h with h'
            rw [← h']
          · exact absurd h (by simp)

theorem triPlane_det_eval : triDet triPlane rayQuarter = 1 := by
  simp [triDet, triUvec, triAB, triAC, triPlane, rayQuarter, Triangle.mk',
    Triangle.new_with_uv]

theorem triPlane_u_eval : triU triPlane rayQuarter = 1 / 4 := by
  simp [triU, triAO, triUvec, triAC, triDet, triAB, triPlane, rayQuarter,
    Triangle.mk', Triangle.new_with_uv]

theorem triPlane_v_eval : triV triPlane rayQuarter = 1 / 4 := by
  simp [triV, triVvec, triAO, triAB, triDet, triUvec, triAC, triPlane,
    rayQuarter, Triangle.mk', Triangle.new_with_uv]

theorem triPlane_dist_eval : triDist triPlane rayQuarter = 1 := by
  simp [triDist, triVvec, triAO, triAB, triAC, triDet, triUvec, triPlane,
    rayQuarter, Triangle.mk', Triangle.new_with_uv]

theorem triPlane_normal_eval : triPlane.normal = ⟨0, 0, -1⟩ := by
  simp [triPlane, Triangle.mk', Triangle.new_with_uv, Vec3.normalize,
    Vec3.length, Vec3.smul]

theorem triangleHit_plane_eval :
    triangleHit triPlane rayQuarter rngMain =
      some ⟨⟨1 / 4, 1 / 4, 1⟩, ⟨0, 0, -1⟩, 1, matGray, true, (1 / 4, 1 / 4)⟩ := by
  unfold triangleHit
  rw [triPlane_det_eval, triPlane_u_eval, triPlane_v_eval, triPlane_dist_eval]
  rw [if_neg (by unfold f32Eps; norm_num)]
  rw [if_neg (by norm_num)]
  rw [if_neg (by norm_num)]
  rw [if_neg (by unfold rngMain RangeF.containsF; norm_num)]
  rw [if_pos (by unfold f32Eps; norm_num)]
  rw [triPlane_normal_eval]
  have hff : Vec3.dot rayQuarter.direction (⟨0, 0, -1⟩ : Vec3) ≤ 0 := by
    simp [rayQuarter]
  rw [if_pos hff]
  have hpt : rayQuarter.origin + (1 : ℝ) • rayQuarter.direction
      = (⟨1 / 4, 1 / 4, 1⟩ : Vec3) := by
    simp [rayQuarter]
  rw [hpt]
  have huv : triUVmapped triPlane (1 / 4) (1 / 4) = (1 / 4, 1 / 4) := by
    simp [triUVmapped, triPlane, Triangle.mk', Triangle.new_with_uv]
    norm_num
  rw [huv]
  have hmat : triPlane.material = matGray := rfl
  rw [hmat]

/-- C8 witness: a concrete triangle hit whose stored UV equals the bounding
rectangle remap of its barycentric parameters. -/
theorem C8_triangle_uv_remap_witness :
    Intersection.uv ⟨⟨1 / 4, 1 / 4, 1⟩, ⟨0, 0, -1⟩, 1, matGray, true, (1 / 4, 1 / 4)⟩ =
      triUVmapped triPlane (triU triPlane rayQuarter) (triV triPlane rayQuarter) :=
  C8_triangle_uv_remap triPlane rayQuarter rngMain _ triangleHit_plane_eval

/-- C8 counterexample: for a hit with barycentric parameters
`u = v = 1/4` on a triangle with the default vertex UV attributes
`(0,0), (1,0), (1/2,1)`, the code stores UV `(1/4, 1/4)` while barycentric
interpolation of the vertex UV attributes gives `(3/8, 1/4)`. -/
theorem C8_counterexample :
    (triangleHit triPlane rayQuarter rngMain).map Intersection.uv
        = some ((1 / 4 : ℝ), (1 / 4 : ℝ)) ∧
    triUVbarycentric triPlane (triU triPlane rayQuarter) (triV triPlane rayQuarter)
        = ((3 / 8 : ℝ), (1 / 4 : ℝ)) ∧
    (((1 / 4 : ℝ), (1 / 4 : ℝ)) : ℝ × ℝ) ≠ (((3 / 8 : ℝ), (1 / 4 : ℝ)) : ℝ × ℝ) := by
  refine ⟨?_, ?_, ?_⟩
  · rw [triangleHit_plane_eval]; rfl
  · rw [triPlane_u_eval, triPlane_v_eval]
    simp [triUVbarycentric, triPlane, Triangle.mk', Triangle.new_with_uv]
    norm_num
  · simp only [ne_eq, Prod.mk.injEq, not_and]
    intro h
    norm_num at h

theorem sphereRoot_of_disc_neg (s : Sphere) (r : Ray) (rng : RangeF)
    (h : sphereDisc s r < 0) : sphereRoot s r rng = none := by
  unfold sphereRoot
  rw [if_pos h]

theorem sphereRoot_of_t1 (s : Sphere) (r : Ray) (rng : RangeF) (t : ℝ)
    (hd : 0 ≤ sphereDisc s r) (h1 : sphereT1 s r = some t)
    (hc : rng.containsF t) : sphereRoot s r rng = some t := by
  unfold sphereRoot
  rw [if_neg (not_lt.mpr hd)]
  simp only [h1]
  rw [if_pos hc]

theorem sphereRoot_of_t2 (s : Sphere) (r : Ray) (rng : RangeF) (t : ℝ)
    (hd : 0 ≤ sphereDisc s r) (h1 : ¬rng.containsOpt (sphereT1 s r))
    (h2 : sphereT2 s r = some t) (hc : rng.containsF t) :
    sphereRoot s r rng = some t := by
  unfold sphereRoot
  rw [if_neg (not_lt.mpr hd)]
  cases ht1 : sphereT1 s r with
  | none =>
      simp only [h2]
      rw [if_pos hc]
  | some t1 =>
      rw [ht1] at h1
      have h1' : ¬rng.containsF t1 := by simpa [RangeF.containsOpt] using h1
      simp only [h2]
      rw [if_neg h1', if_pos hc]

theorem sphereRoot_of_miss (s : Sphere) (r : Ray) (rng : RangeF)
    (h1 : ¬rng.containsOpt (sphereT1 s r)) (h2 : ¬rng.containsOpt (sphereT2 s r)) :
    sphereRoot s r rng = none := by
  unfold sphereRoot
  rcases lt_or_le (sphereDisc s r) 0 with hd | hd
  · rw [if_pos hd]
  · rw [if_neg (not_lt.mpr hd)]
    cases ht1 : sphereT1 s r with
    | none =>
        cases ht2 : sphereT2 s r with
        | none => rfl
        | some t2 =>
            rw [ht2] at h2
            have h2' : ¬rng.containsF t2 := by simpa [RangeF.containsOpt] using h2
            simp only []
            rw [if_neg h2']
    | some t1 =>
        rw [ht1] at h1
        have h1' : ¬rng.containsF t1 := by simpa [RangeF.containsOpt] using h1
        simp only []
        rw [if_neg h1']
        cases ht2 : sphereT2 s r with
        | none => rfl
        | some t2 =>
            rw [ht2] at h2
            have h2' : ¬rng.containsF t2 := by simpa [RangeF.containsOpt] using h2
            simp only []
            rw [if_neg h2']

theorem sphereUVat_eq_none (s : Sphere) (r : Ray) (t : ℝ)
    (hn : sphereNormal s r t = none) : sphereUVat s r t = none := by
  unfold sphereUVat
  simp only [hn]

theorem sphereUVat_eq_some (s : Sphere) (r : Ray) (t : ℝ) (n : Vec3) (ff : Bool)
    (hn : sphereNormal s r t = some (n, ff)) :
    sphereUVat s r t = unit_sphere_uv_facing n s.front_direction := by
  unfold sphereUVat
  simp only [hn]

theorem sphereHit_of_root_none (s : Sphere) (r : Ray) (rng : RangeF)
    (h : sphereRoot s r rng = none) : sphereHit s r rng = none := by
  unfold sphereHit
  simp only [h]

theorem sphereHit_eq_none_normal (s : Sphere) (r : Ray) (rng : RangeF) (t : ℝ)
    (hroot : sphereRoot s r rng = some t) (hn : sphereNormal s r t = none) :
    sphereHit s r rng = none := by
  unfold sphereHit
  simp only [hroot, hn]

theorem sphereHit_eq_none_uv (s : Sphere) (r : Ray) (rng : RangeF) (t : ℝ)
    (n : Vec3) (ff : Bool) (hroot : sphereRoot s r rng = some t)
    (hn : sphereNormal s r t = some (n, ff))
    (huv : unit_sphere_uv_facing n s.front_direction = none) :
    sphereHit s r rng = none := by
  unfold sphereHit
  simp only [hroot, hn, huv]

theorem sphereHit_eq_some (s : Sphere) (r : Ray) (rng : RangeF) (t : ℝ)
    (n : Vec3) (ff : Bool) (uv : ℝ × ℝ) (hroot : sphereRoot s r rng = some t)
    (hn : sphereNormal s r t = some (n, ff))
    (huv : unit_sphere_uv_facing n s.front_direction = some uv) :
    sphereHit s r rng = some ⟨r.pointAt t, n, t, s.material, ff, uv⟩ := by
  unfold sphereHit
  simp only [hroot, hn, huv]

theorem sphereHit_of_root_some (s : Sphere) (r : Ray) (rng : RangeF) (t : ℝ)
    (h : sphereRoot s r rng = some t) :
    (sphereUVat s r t = none → sphereHit s r rng = none) ∧
    (∀ uv, sphereUVat s r t = some uv →
      ∃ n ff, sphereNormal s r t = some (n, ff) ∧
        sphereHit s r rng = some ⟨r.pointAt t, n, t, s.material, ff, uv⟩) := by
  constructor
  · intro hUV
    cases hn : sphereNormal s r t with
    | none => exact sphereHit_eq_none_normal s r rng t h hn
    | some nf =>
        obtain ⟨n, ff⟩ := nf
        rw [sphereUVat_eq_some s r t n ff hn] at hUV
        exact sphereHit_eq_none_uv s r rng t n ff h hn hUV
  · intro uv huv
    cases hn : sphereNormal s r t with
    | none =>
        rw [sphereUVat_eq_none s r t hn] at huv
        exact absurd huv (by simp)
    | some nf =>
        obtain ⟨n, ff⟩ := nf
        rw [sphereUVat_eq_some s r t n ff hn] at huv
        exact ⟨n, ff, rfl, sphereHit_eq_some s r rng t n ff uv h hn huv⟩

/-- C2 (amended): `Sphere::hit` rejects a negative discriminant; otherwise
it prefers the smaller root `(h - √disc)/a` when that lies in `t_range`,
else the larger root `(h + √disc)/a` when that lies in range, and rejects
when neither does (a NaN root from `a = 0` lies in no range) — except that,
beyond what the claim states, a selected root whose computed texture UV is
NaN (e.g. for a zero-radius sphere) is also rejected by the NaN-UV guard. -/
theorem C2_sphere_hit_roots (s : Sphere) (r : Ray) (rng : RangeF) :
    (sphereDisc s r < 0 → sphereHit s r rng = none) ∧
    (∀ t1, 0 ≤ sphereDisc s r → sphereT1 s r = some t1 → rng.containsF t1 →
      (sphereUVat s r t1 = none → sphereHit s r rng = none) ∧
      (∀ uv, sphereUVat s r t1 = some uv →
        ∃ i, sphereHit s r rng = some i ∧ i.t = t1 ∧ i.uv = uv)) ∧
    (∀ t2, 0 ≤ sphereDisc s r → ¬rng.containsOpt (sphereT1 s r) →
      sphereT2 s r = some t2 → rng.containsF t2 →
      (sphereUVat s r t2 = none → sphereHit s r rng = none) ∧
      (∀ uv, sphereUVat s r t2 = some uv →
        ∃ i, sphereHit s r rng = some i ∧ i.t = t2 ∧ i.uv = uv)) ∧
    (¬rng.containsOpt (sphereT1 s r) → ¬rng.containsOpt (sphereT2 s r) →
      sphereHit s r rng = none) := by
  refine ⟨?_, ?_, ?_, ?_⟩
  · intro hd
    exact sphereHit_of_root_none s r rng (sphereRoot_of_disc_neg s r rng hd)
  · intro t1 hd h1 hc
    obtain ⟨hnone, hsome⟩ :=
      sphereHit_of_root_some s r rng t1 (sphereRoot_of_t1 s r rng t1 hd h1 hc)
    refine ⟨hnone, fun uv huv => ?_⟩
    obtain ⟨n, ff, -, hhit⟩ := hsome uv huv
    exact ⟨_, hhit, rfl, rfl⟩
  · intro t2 hd h1 h2 hc
    obtain ⟨hnone, hsome⟩ :=
      sphereHit_of_root_some s r rng t2 (sphereRoot_of_t2 s r rng t2 hd h1 h2 hc)
    refine ⟨hnone, fun uv huv => ?_⟩
    obtain ⟨n, ff, -, hhit⟩ := hsome uv huv
    exact ⟨_, hhit, rfl, rfl⟩
  · intro h1 h2
    exact sphereHit_of_root_none s r rng (sphereRoot_of_miss s r rng h1 h2)

theorem sphereZero_disc_eval : sphereDisc sphereZero rayZero = 0 := by
  simp [sphereDisc, sphereH, sphereA, sphereC, sphereOc, sphereZero, rayZero,
    Sphere.mk', Sphere.new_facing]

theorem sphereZero_t1_eval : sphereT1 sphereZero rayZero = some 2 := by
  rw [sphereT1, sphereZero_disc_eval]
  have ha : sphereA rayZero = 1 := by
    simp [sphereA, rayZero]
  have hh : sphereH sphereZero rayZero = 2 := by
    simp [sphereH, sphereOc, sphereZero, rayZero, Sphere.mk', Sphere.new_facing]
  rw [ha, hh, Real.sqrt_zero]
  unfold divF
  norm_num

theorem sphereZero_uv_eval : sphereUVat sphereZero rayZero 2 = none := by
  apply sphereUVat_eq_none
  unfold sphereNormal vdivF
  rw [if_pos (by simp [sphereZero, Sphere.mk', Sphere.new_facing])]

theorem sphereZero_root_eval : sphereRoot sphereZero rayZero rngMain = some 2 :=
  sphereRoot_of_t1 sphereZero rayZero rngMain 2 (by rw [sphereZero_disc_eval])
    sphereZero_t1_eval (by unfold rngMain RangeF.containsF; norm_num)

/-- C2 counterexample: for the zero-radius sphere (radius legally clamped to
`0` by `Sphere::new`) and the ray through its center, the discriminant is
`0` and the smaller root `2` lies in `t_range`, yet `Sphere::hit` returns
`None` (the computed UV is NaN and the guard rejects the hit). -/
theorem C2_counterexample :
    0 ≤ sphereDisc sphereZero rayZero ∧
    sphereT1 sphereZero rayZero = some 2 ∧
    rngMain.containsF 2 ∧
    sphereHit sphereZero rayZero rngMain = none := by
  refine ⟨by rw [sphereZero_disc_eval], sphereZero_t1_eval, ?_, ?_⟩
  · unfold rngMain RangeF.containsF
    norm_num
  · exact (sphereHit_of_root_some sphereZero rayZero rngMain 2
      sphereZero_root_eval).1 sphereZero_uv_eval

/-- C2 witness: the NaN-UV carve-out of the amended claim is exercised at
the zero-radius sphere, where the theorem yields the rejected hit. -/
theorem C2_sphere_hit_roots_witness :
    sphereUVat sphereZero rayZero 2 = none ∧
    sphereHit sphereZero rayZero rngMain = none :=
  ⟨sphereZero_uv_eval,
    ((C2_sphere_hit_roots sphereZero rayZero rngMain).2.1 2
      (by rw [sphereZero_disc_eval]) sphereZero_t1_eval
      (by unfold rngMain RangeF.containsF; norm_num)).1 sphereZero_uv_eval⟩

/-- C7: a NaN computed UV makes `Sphere::hit` return `None` (the guard),
and every returned intersection carries exactly the (non-NaN) UV computed
for its hit parameter — a NaN UV is never propagated inside a record. -/
theorem C7_sphere_nan_uv_is_miss (s : Sphere) (r : Ray) (rng : RangeF) :
    (∀ t, sphereRoot s r rng = some t → sphereUVat s r t = none →
      sphereHit s r rng = none) ∧
    (∀ i, sphereHit s r rng = some i → sphereUVat s r i.t = some i.uv) := by
  constructor
  · intro t hroot huv
    exact (sphereHit_of_root_some s r rng t hroot).1 huv
  · intro i hi
    cases hroot : sphereRoot s r rng with
    | none =>
        rw [sphereHit_of_root_none s r rng hroot] at hi
        exact absurd hi (by simp)
    | some t =>
        cases hn : sphereNormal s r t with
        | none =>
            rw [sphereHit_eq_none_normal s r rng t hroot hn] at hi
            exact absurd hi (by simp)
        | some nf =>
            obtain ⟨n, ff⟩ := nf
            cases huv : unit_sphere_uv_facing n s.front_direction with
            | none =>
                rw [sphereHit_eq_none_uv s r rng t n ff hroot hn huv] at hi
                exact absurd hi (by simp)
            | some uv0 =>
                rw [sphereHit_eq_some s r rng t n ff uv0 hroot hn huv] at hi
                injection hi with hi'
                rw [← hi']
                rw [sphereUVat_eq_some s r t n ff hn]
                exact huv

/-- C7 witness: the zero-radius sphere's through-center hit has a NaN UV and
is reported as a miss by the theorem. -/
theorem C7_sphere_nan_uv_is_miss_witness :
    sphereRoot sphereZero rayZero rngMain = some 2 ∧
    sphereHit sphereZero rayZero rngMain = none :=
  ⟨sphereZero_root_eval,
    (C7_sphere_nan_uv_is_miss sphereZero rayZero rngMain).1 2 sphereZero_root_eval
      sphereZero_uv_eval⟩

theorem Vec3.normSq_nonneg (v : Vec3) : 0 ≤ Vec3.normSq v := by
  rcases v with ⟨x, y, z⟩
  simp only [Vec3.normSq_mk]
  nlinarith [mul_self_nonneg x, mul_self_nonneg y, mul_self_nonneg z]

theorem Vec3.normSq_eq_zero_iff (v : Vec3) :
    Vec3.normSq v = 0 ↔ v = ⟨0, 0, 0⟩ := by
  rcases v with ⟨x, y, z⟩
  simp only [Vec3.normSq_mk, Vec3.mk_eq_iff]
  constructor
  · intro h
    have hx : x * x = 0 := by nlinarith [mul_self_nonneg y, mul_self_nonneg z]
    have hy : y * y = 0 := by nlinarith [mul_self_nonneg x, mul_self_nonneg z]
    have hz : z * z = 0 := by nlinarith [mul_self_nonneg x, mul_self_nonneg y]
    exact ⟨mul_self_eq_zero.mp hx, mul_self_eq_zero.mp hy, mul_self_eq_zero.mp hz⟩
  · rintro ⟨hx, hy, hz⟩
    rw [hx, hy, hz]
    ring

theorem Vec3.dot_smul_right (s : ℝ) (u v : Vec3) :
    Vec3.dot u (Vec3.smul s v) = s * Vec3.dot u v := by
  rcases u with ⟨a, b, c⟩; rcases v with ⟨x, y, z⟩
  simp only [Vec3.smul, Vec3.dot]
  ring

theorem Vec3.dot_neg_right (u v : Vec3) :
    Vec3.dot u (-v) = -Vec3.dot u v := by
  rcases u with ⟨a, b, c⟩; rcases v with ⟨x, y, z⟩
  simp only [Vec3.neg_mk, Vec3.dot]
  ring

theorem Vec3.normSq_smul (s : ℝ) (v : Vec3) :
    Vec3.normSq (Vec3.smul s v) = s ^ 2 * Vec3.normSq v := by
  rcases v with ⟨x, y, z⟩
  simp only [Vec3.smul, Vec3.normSq_mk]
  ring

theorem Vec3.normSq_neg (v : Vec3) : Vec3.normSq (-v) = Vec3.normSq v := by
  rcases v with ⟨x, y, z⟩
  simp only [Vec3.neg_mk, Vec3.normSq_mk]
  ring

theorem Vec3.cross_smul_smul (s t : ℝ) (u v : Vec3) :
    Vec3.cross (Vec3.smul s u) (Vec3.smul t v)
      = Vec3.smul (s * t) (Vec3.cross u v) := by
  rcases u with ⟨a, b, c⟩; rcases v with ⟨x, y, z⟩
  simp only [Vec3.smul, Vec3.cross_mk, Vec3.mk_eq_iff]
  refine ⟨by ring, by ring, by ring⟩

theorem Vec3.smul_eq_zero_iff (s : ℝ) (v : Vec3) (hs : s ≠ 0) :
    Vec3.smul s v = ⟨0, 0, 0⟩ ↔ v = ⟨0, 0, 0⟩ := by
  rcases v with ⟨x, y, z⟩
  simp only [Vec3.smul, Vec3.mk_eq_iff, mul_eq_zero]
  constructor
  · rintro ⟨hx, hy, hz⟩
    exact ⟨hx.resolve_left hs, hy.resolve_left hs, hz.resolve_left hs⟩
  · rintro ⟨hx, hy, hz⟩
    exact ⟨.inr hx, .inr hy, .inr hz⟩

theorem Vec3.length_pos_of_ne (v : Vec3) (h : v ≠ ⟨0, 0, 0⟩) :
    0 < Vec3.length v := by
  unfold Vec3.length
  apply Real.sqrt_pos.mpr
  rcases lt_or_eq_of_le (Vec3.normSq_nonneg v) with hlt | heq
  · exact hlt
  · exact absurd ((Vec3.normSq_eq_zero_iff v).mp heq.symm) h

theorem Vec3.normSq_normalize (v : Vec3) (h : v ≠ ⟨0, 0, 0⟩) :
    Vec3.normSq (Vec3.normalize v) = 1 := by
  unfold Vec3.normalize
  rw [Vec3.normSq_smul]
  have h0 : 0 < Vec3.normSq v := by
    rcases lt_or_eq_of_le (Vec3.normSq_nonneg v) with hlt | heq
    · exact hlt
    · exact absurd ((Vec3.normSq_eq_zero_iff v).mp heq.symm) h
  unfold Vec3.length
  rw [inv_pow, Real.sq_sqrt h0.le]
  field_simp

theorem Vec3.triple_rotate (u d v : Vec3) :
    Vec3.dot u (Vec3.cross d v) = -Vec3.dot d (Vec3.cross u v) := by
  rcases u with ⟨a, b, c⟩; rcases d with ⟨p, q, s⟩; rcases v with ⟨x, y, z⟩
  simp only [Vec3.cross_mk, Vec3.dot_mk]
  ring

theorem sphereRoot_inv (s : Sphere) (r : Ray) (rng : RangeF) (t : ℝ)
    (h : sphereRoot s r rng = some t) :
    0 ≤ sphereDisc s r ∧ sphereA r ≠ 0 ∧
    (t = (sphereH s r - Real.sqrt (sphereDisc s r)) / sphereA r ∨
     t = (sphereH s r + Real.sqrt (sphereDisc s r)) / sphereA r) := by
  unfold sphereRoot at h
  rcases lt_or_le (sphereDisc s r) 0 with hd | hd
  · rw [if_pos hd] at h
    exact absurd h (by simp)
  · rw [if_neg (not_lt.mpr hd)] at h
    by_cases ha : sphereA r = 0
    · have h1 : sphereT1 s r = none := by unfold sphereT1 divF; rw [if_pos ha]
      have h2 : sphereT2 s r = none := by unfold sphereT2 divF; rw [if_pos ha]
      simp only [h1, h2] at h
      exact absurd h (by simp)
    · have h1 : sphereT1 s r
          = some ((sphereH s r - Real.sqrt (sphereDisc s r)) / sphereA r) := by
        unfold sphereT1 divF; rw [if_neg ha]
      have h2 : sphereT2 s r
          = some ((sphereH s r + Real.sqrt (sphereDisc s r)) / sphereA r) := by
        unfold sphereT2 divF; rw [if_neg ha]
      simp only [h1, h2] at h
      split_ifs at h with hc1 hc2
      · injection h with h'
        exact ⟨hd, ha, .inl h'.symm⟩
      · injection h with h'
        exact ⟨hd, ha, .inr h'.symm⟩

theorem normSq_pointAt_sub_center (s : Sphere) (r : Ray) (t : ℝ) :
    Vec3.normSq (r.pointAt t - s.center)
      = sphereA r * t ^ 2 - 2 * sphereH s r * t + Vec3.normSq (sphereOc s r) := by
  rcases r with ⟨⟨ox, oy, oz⟩, ⟨dx, dy, dz⟩⟩
  rcases s with ⟨⟨cx, cy, cz⟩, rad, fd, m⟩
  simp only [Ray.pointAt, sphereA, sphereH, sphereOc, Vec3.smul_mk, Vec3.add_mk,
    Vec3.sub_mk, Vec3.normSq_mk, Vec3.dot_mk, HSMul.hSMul, SMul.smul, Vec3.smul]
  ring

theorem sphere_root_on_sphere (s : Sphere) (r : Ray) (t : ℝ)
    (hd : 0 ≤ sphereDisc s r) (ha : sphereA r ≠ 0)
    (ht : t = (sphereH s r - Real.sqrt (sphereDisc s r)) / sphereA r ∨
          t = (sphereH s r + Real.sqrt (sphereDisc s r)) / sphereA r) :
    Vec3.normSq (r.pointAt t - s.center) = s.radius * s.radius := by
  have hs2 : Real.sqrt (sphereDisc s r) ^ 2
      = sphereH s r ^ 2 - sphereA r * sphereC s r := by
    rw [Real.sq_sqrt hd]
    unfold sphereDisc
    ring
  have hquad : sphereA r * t ^ 2 - 2 * sphereH s r * t + sphereC s r = 0 := by
    have key : ∀ sgn : ℝ, sgn ^ 2 = 1 →
        t = (sphereH s r + sgn * Real.sqrt (sphereDisc s r)) / sphereA r →
        sphereA r * t ^ 2 - 2 * sphereH s r * t + sphereC s r = 0 := by
      intro sgn hsgn htt
      have hAt : sphereA r * t
          = sphereH s r + sgn * Real.sqrt (sphereDisc s r) := by
        rw [htt]; field_simp
      have hmul : sphereA r * (sphereA r * t ^ 2 - 2 * sphereH s r * t + sphereC s r)
          = (sphereA r * t) ^ 2 - 2 * sphereH s r * (sphereA r * t)
            + sphereC s r * sphereA r := by ring
      have hz : sphereA r * (sphereA r * t ^ 2 - 2 * sphereH s r * t + sphereC s r)
          = 0 := by
        rw [hmul, hAt]
        have expand : (sphereH s r + sgn * Real.sqrt (sphereDisc s r)) ^ 2
            = sphereH s r ^ 2
              + 2 * sgn * sphereH s r * Real.sqrt (sphereDisc s r)
              + sgn ^ 2 * Real.sqrt (sphereDisc s r) ^ 2 := by ring
        rw [expand, hsgn, hs2]
        ring
      exact (mul_eq_zero.mp hz).resolve_left ha
    rcases ht with htt | htt
    · exact key (-1) (by norm_num) (by rw [htt]; ring_nf)
    · exact key 1 (by norm_num) (by rw [htt]; ring_nf)
  rw [normSq_pointAt_sub_center]
  have hc : Vec3.normSq (sphereOc s r) = sphereC s r + s.radius * s.radius := by
    unfold sphereC
    ring
  rw [hc]
  linarith [hquad]

theorem sphereNormal_inv (s : Sphere) (r : Ray) (t : ℝ) (n : Vec3) (ff : Bool)
    (h : sphereNormal s r t = some (n, ff)) :
    s.radius ≠ 0 ∧
    ((ff = true ∧ n = Vec3.smul s.radius⁻¹ (r.pointAt t - s.center) ∧
        Vec3.dot r.direction n < 0) ∨
     (ff = false ∧ n = -Vec3.smul s.radius⁻¹ (r.pointAt t - s.center) ∧
        ¬Vec3.dot r.direction (Vec3.smul s.radius⁻¹ (r.pointAt t - s.center)) < 0)) := by
  by_cases hr : s.radius = 0
  · have hnone : sphereNormal s r t = none := by
      unfold sphereNormal vdivF
      rw [if_pos hr]
    rw [hnone] at h
    exact absurd h (by simp)
  · have hv : vdivF (r.pointAt t - s.center) s.radius
        = some (Vec3.smul s.radius⁻¹ (r.pointAt t - s.center)) := by
      unfold vdivF
      rw [if_neg hr]
      rfl
    by_cases hff : Intersection.frontFaceTest r
        (Vec3.smul s.radius⁻¹ (r.pointAt t - s.center))
    · have h2 : sphereNormal s r t
          = some (Vec3.smul s.radius⁻¹ (r.pointAt t - s.center), true) := by
        unfold sphereNormal
        simp only [hv]
        rw [if_pos hff]
      rw [h2] at h
      simp only [Option.some.injEq, Prod.mk.injEq] at h
      obtain ⟨hn', hff'⟩ := h
      refine ⟨hr, .inl ⟨hff'.symm, hn'.symm, ?_⟩⟩
      rw [hn'] at hff
      exact hff
    · have h2 : sphereNormal s r t
          = some (-Vec3.smul s.radius⁻¹ (r.pointAt t - s.center), false) := by
        unfold sphereNormal
        simp only [hv]
        rw [if_neg hff]
      rw [h2] at h
      simp only [Option.some.injEq, Prod.mk.injEq] at h
      obtain ⟨hn', hff'⟩ := h
      exact ⟨hr, .inr ⟨hff'.symm, hn'.symm, hff⟩⟩

theorem sphereHit_inv (s : Sphere) (r : Ray) (rng : RangeF) (i : Intersection)
    (h : sphereHit s r rng = some i) :
    ∃ t n ff uv, sphereRoot s r rng = some t ∧ sphereNormal s r t = some (n, ff) ∧
      unit_sphere_uv_facing n s.front_direction = some uv ∧
      i = ⟨r.pointAt t, n, t, s.material, ff, uv⟩ := by
  cases hroot : sphereRoot s r rng with
  | none =>
      rw [sphereHit_of_root_none s r rng hroot] at h
      exact absurd h (by simp)
  | some t =>
      cases hn : sphereNormal s r t with
      | none =>
          rw [sphereHit_eq_none_normal s r rng t hroot hn] at h
          exact absurd h (by simp)
      | some nf =>
          obtain ⟨n, ff⟩ := nf
          cases huv : unit_sphere_uv_facing n s.front_direction with
          | none =>
              rw [sphereHit_eq_none_uv s r rng t n ff hroot hn huv] at h
              exact absurd h (by simp)
          | some uv =>
              rw [sphereHit_eq_some s r rng t n ff uv hroot hn huv] at h
              injection h with h'
              exact ⟨t, n, ff, uv, rfl, hn, huv, h'.symm⟩

theorem Vec3.dot_zero_right (u : Vec3) : Vec3.dot u ⟨0, 0, 0⟩ = 0 := by
  rcases u with ⟨a, b, c⟩
  simp only [Vec3.dot_mk]
  ring

theorem Vec3.cross_zero_left (v : Vec3) : Vec3.cross ⟨0, 0, 0⟩ v = ⟨0, 0, 0⟩ := by
  rcases v with ⟨x, y, z⟩
  simp only [Vec3.cross_mk, Vec3.mk_eq_iff]
  refine ⟨by ring, by ring, by ring⟩

theorem Vec3.cross_zero_right (v : Vec3) : Vec3.cross v ⟨0, 0, 0⟩ = ⟨0, 0, 0⟩ := by
  rcases v with ⟨x, y, z⟩
  simp only [Vec3.cross_mk, Vec3.mk_eq_iff]
  refine ⟨by ring, by ring, by ring⟩

theorem f32Eps_pos : 0 < f32Eps := by
  unfold f32Eps
  norm_num

theorem triangleHit_inv (tri : Triangle) (r : Ray) (rng : RangeF) (i : Intersection)
    (h : triangleHit tri r rng = some i) :
    f32Eps ≤ triDet tri r ∧ i.normal = tri.normal ∧ i.t = triDist tri r := by
  unfold triangleHit at h
  rcases lt_or_le (triDet tri r) f32Eps with h1 | h1
  · rw [if_pos h1] at h
    exact absurd h (by simp)
  · rw [if_neg (not_lt.mpr h1)] at h
    by_cases h2 : 0 ≤ triU tri r ∧ triU tri r ≤ 1
    · rw [if_neg (not_not_intro h2)] at h
      by_cases h3 : triV tri r < 0 ∨ 1 < triU tri r + triV tri r
      · rw [if_pos h3] at h
        exact absurd h (by simp)
      · rw [if_neg h3] at h
        by_cases h4 : rng.containsF (triDist tri r)
        · rw [if_neg (not_not_intro h4)] at h
          by_cases h5 : f32Eps < triDist tri r
          · rw [if_pos h5] at h
            injection h with h'
            rw [← h']
            exact ⟨h1, rfl, rfl⟩
          · rw [if_neg h5] at h
            exact absurd h (by simp)
        · rw [if_pos h4] at h
          exact absurd h (by simp)
    · rw [if_pos h2] at h
      exact absurd h (by simp)

theorem triangle_new_normal_facts (a b c : Vec3) (uva uvb uvc : ℝ × ℝ)
    (m : Material) (r : Ray)
    (hdet : f32Eps ≤ triDet (Triangle.new_with_uv a b c uva uvb uvc m) r) :
    Vec3.normSq (Triangle.new_with_uv a b c uva uvb uvc m).normal = 1 ∧
    Vec3.dot r.direction (Triangle.new_with_uv a b c uva uvb uvc m).normal < 0 := by
  have hdet_pos : 0 < triDet (Triangle.new_with_uv a b c uva uvb uvc m) r :=
    lt_of_lt_of_le f32Eps_pos hdet
  have hdet_eq : triDet (Triangle.new_with_uv a b c uva uvb uvc m) r
      = Vec3.dot (b - a) (Vec3.cross r.direction (c - a)) := rfl
  have htriple : Vec3.dot (b - a) (Vec3.cross r.direction (c - a))
      = -Vec3.dot r.direction (Vec3.cross (b - a) (c - a)) :=
    Vec3.triple_rotate (b - a) r.direction (c - a)
  have hdotneg : Vec3.dot r.direction (Vec3.cross (b - a) (c - a)) < 0 := by
    have h0 := hdet_pos
    rw [hdet_eq, htriple] at h0
    linarith
  have hcross_ne : Vec3.cross (b - a) (c - a) ≠ ⟨0, 0, 0⟩ := by
    intro hc
    rw [hc, Vec3.dot_zero_right] at hdotneg
    exact lt_irrefl 0 hdotneg
  have hu_ne : b - a ≠ ⟨0, 0, 0⟩ := by
    intro hc
    rw [hc, Vec3.cross_zero_left] at hcross_ne
    exact hcross_ne rfl
  have hv_ne : c - a ≠ ⟨0, 0, 0⟩ := by
    intro hc
    rw [hc, Vec3.cross_zero_right] at hcross_ne
    exact hcross_ne rfl
  have hlu := Vec3.length_pos_of_ne (b - a) hu_ne
  have hlv := Vec3.length_pos_of_ne (c - a) hv_ne
  have hk_pos : 0 < (Vec3.length (b - a))⁻¹ * (Vec3.length (c - a))⁻¹ := by positivity
  have hw0 : Vec3.cross (Vec3.normalize (b - a)) (Vec3.normalize (c - a))
      = Vec3.smul ((Vec3.length (b - a))⁻¹ * (Vec3.length (c - a))⁻¹)
          (Vec3.cross (b - a) (c - a)) := by
    unfold Vec3.normalize
    exact Vec3.cross_smul_smul _ _ _ _
  have hw0_ne : Vec3.cross (Vec3.normalize (b - a)) (Vec3.normalize (c - a))
      ≠ ⟨0, 0, 0⟩ := by
    rw [hw0]
    intro hc
    exact hcross_ne ((Vec3.smul_eq_zero_iff _ _ hk_pos.ne').mp hc)
  have hnormal_eq : (Triangle.new_with_uv a b c uva uvb uvc m).normal
      = Vec3.normalize
          (Vec3.cross (Vec3.normalize (b - a)) (Vec3.normalize (c - a))) := rfl
  constructor
  · rw [hnormal_eq]
    exact Vec3.normSq_normalize _ hw0_ne
  · rw [hnormal_eq]
    unfold Vec3.normalize
    rw [Vec3.dot_smul_right]
    have hlen_pos := Vec3.length_pos_of_ne _ hw0_ne
    have hdotw0 : Vec3.dot r.direction
        (Vec3.cross (Vec3.normalize (b - a)) (Vec3.normalize (c - a))) < 0 := by
      rw [hw0, Vec3.dot_smul_right]
      exact mul_neg_of_pos_of_neg hk_pos hdotneg
    exact mul_neg_of_pos_of_neg (inv_pos.mpr hlen_pos) hdotw0

/-- C6 (amended): every intersection record returned by `Sphere::hit` or
`Triangle::hit` (on shapes built by their constructors) carries a unit
normal that does not point along the incoming ray:
`dot(ray.direction, normal) ≤ 0` — with equality possible for a tangent
(zero-discriminant) sphere hit, so the claim's strict `< 0` fails — and the
normal equals exactly the value computed at record construction (the
oriented sphere normal at the hit parameter; the triangle's precomputed
normal). -/
theorem C6_normal_invariant :
    (∀ (center : Vec3) (radius : ℝ) (m : Material) (fd : Vec3) (r : Ray)
        (rng : RangeF) (i : Intersection),
        sphereHit (Sphere.new_facing center radius m fd) r rng = some i →
        Vec3.normSq i.normal = 1 ∧ Vec3.dot r.direction i.normal ≤ 0 ∧
        sphereNormal (Sphere.new_facing center radius m fd) r i.t
          = some (i.normal, i.is_front_face)) ∧
    (∀ (a b c : Vec3) (uva uvb uvc : ℝ × ℝ) (m : Material) (r : Ray)
        (rng : RangeF) (i : Intersection),
        triangleHit (Triangle.new_with_uv a b c uva uvb uvc m) r rng = some i →
        Vec3.normSq i.normal = 1 ∧ Vec3.dot r.direction i.normal < 0 ∧
        i.normal = (Triangle.new_with_uv a b c uva uvb uvc m).normal) := by
  constructor
  · intro center radius m fd r rng i h
    obtain ⟨t, n, ff, uv, hroot, hn, huv, hi⟩ :=
      sphereHit_inv (Sphere.new_facing center radius m fd) r rng i h
    obtain ⟨hd, ha, ht⟩ :=
      sphereRoot_inv (Sphere.new_facing center radius m fd) r rng t hroot
    have honsphere :=
      sphere_root_on_sphere (Sphere.new_facing center radius m fd) r t hd ha ht
    obtain ⟨hr0, hcase⟩ :=
      sphereNormal_inv (Sphere.new_facing center radius m fd) r t n ff hn
    have hni : i.normal = n := by rw [hi]
    have hti : i.t = t := by rw [hi]
    have hffi : i.is_front_face = ff := by rw [hi]
    have hn0sq : Vec3.normSq (Vec3.smul (Sphere.new_facing center radius m fd).radius⁻¹
        (r.pointAt t - (Sphere.new_facing center radius m fd).center)) = 1 := by
      rw [Vec3.normSq_smul, honsphere]
      rw [inv_pow]
      rw [show ((Sphere.new_facing center radius m fd).radius ^ 2)⁻¹ *
            ((Sphere.new_facing center radius m fd).radius *
              (Sphere.new_facing center radius m fd).radius)
          = ((Sphere.new_facing center radius m fd).radius ^ 2)⁻¹ *
            ((Sphere.new_facing center radius m fd).radius ^ 2) by ring]
      exact inv_mul_cancel₀ (pow_ne_zero 2 hr0)
    rcases hcase with ⟨hfft, hneq, hdlt⟩ | ⟨hfff, hneq, hdge⟩
    · refine ⟨?_, ?_, ?_⟩
      · rw [hni, hneq]; exact hn0sq
      · rw [hni]; exact le_of_lt hdlt
      · rw [hti, hni, hffi]; exact hn
    · refine ⟨?_, ?_, ?_⟩
      · rw [hni, hneq, Vec3.normSq_neg]; exact hn0sq
      · rw [hni, hneq, Vec3.dot_neg_right]
        have : 0 ≤ Vec3.dot r.direction
            (Vec3.smul (Sphere.new_facing center radius m fd).radius⁻¹
              (r.pointAt t - (Sphere.new_facing center radius m fd).center)) :=
          le_of_not_lt hdge
        linarith
      · rw [hti, hni, hffi]; exact hn
  · intro a b c uva uvb uvc m r rng i h
    obtain ⟨hdet, hni, -⟩ := triangleHit_inv _ r rng i h
    obtain ⟨h1, h2⟩ := triangle_new_normal_facts a b c uva uvb uvc m r hdet
    exact ⟨by rw [hni]; exact h1, by rw [hni]; exact h2, hni⟩

/-- C6 witness: the concrete triangle hit of `triPlane` exercises the
theorem; its normal is the precomputed unit normal facing against the ray. -/
theorem C6_normal_invariant_witness :
    Vec3.normSq ((⟨0, 0, -1⟩ : Vec3)) = 1 ∧
    Vec3.dot rayQuarter.direction ((⟨0, 0, -1⟩ : Vec3)) < 0 ∧
    ((⟨0, 0, -1⟩ : Vec3)) = (Triangle.new_with_uv ⟨0, 0, 1⟩ ⟨0, 1, 1⟩ ⟨1, 0, 1⟩
        (0, 0) (1, 0) (1 / 2, 1) matGray).normal :=
  C6_normal_invariant.2 ⟨0, 0, 1⟩ ⟨0, 1, 1⟩ ⟨1, 0, 1⟩ (0, 0) (1, 0) (1 / 2, 1)
    matGray rayQuarter rngMain
    ⟨⟨1 / 4, 1 / 4, 1⟩, ⟨0, 0, -1⟩, 1, matGray, true, (1 / 4, 1 / 4)⟩
    triangleHit_plane_eval

theorem atan2F_zero_one : atan2F 0 1 = 0 := by
  unfold atan2F
  rw [if_pos one_pos]
  norm_num [Real.arctan_zero]

theorem atan2F_negone_zero : atan2F (-1) 0 = -(π / 2) := by
  unfold atan2F
  rw [if_neg (lt_irrefl 0), if_neg (lt_irrefl 0), if_neg (by norm_num),
    if_pos (by norm_num)]

theorem atan2F_zero_zero : atan2F 0 0 = 0 := by
  unfold atan2F
  rw [if_neg (lt_irrefl 0), if_neg (lt_irrefl 0), if_neg (lt_irrefl 0),
    if_neg (lt_irrefl 0)]

theorem uv_facing_xaxis (p : Vec3) :
    unit_sphere_uv_facing p ⟨1, 0, 0⟩ = unit_sphere_uv p 0 0 0 := by
  unfold unit_sphere_uv_facing
  have h1 : Real.sqrt ((⟨1, 0, 0⟩ : Vec3).y * (⟨1, 0, 0⟩ : Vec3).y +
      (⟨1, 0, 0⟩ : Vec3).x * (⟨1, 0, 0⟩ : Vec3).x) = 1 := by
    norm_num
  rw [h1]
  rw [show ((⟨1, 0, 0⟩ : Vec3).z) = 0 from rfl, show ((⟨1, 0, 0⟩ : Vec3).y) = 0 from rfl,
    show ((⟨1, 0, 0⟩ : Vec3).x) = 1 from rfl, atan2F_zero_one]

theorem rot_zero_eval (p : Vec3) : rotY 0 (rotZ (-0) p) = p := by
  rcases p with ⟨x, y, z⟩
  simp [rotY, rotZ]

theorem remEuclid_half_pi : remEuclid (π / 2) (2 * π) = π / 2 := by
  unfold remEuclid
  have h14 : π / 2 / (2 * π) = 1 / 4 := by
    rw [div_div]
    rw [show (2 : ℝ) * (2 * π) = 4 * π by ring]
    rw [div_eq_div_iff (by positivity) (by norm_num : (4 : ℝ) ≠ 0)]
    ring
  rw [h14]
  norm_num

theorem remEuclid_pi : remEuclid π (2 * π) = π := by
  unfold remEuclid
  have h12 : π / (2 * π) = 1 / 2 := by
    rw [div_eq_div_iff (by positivity) (by norm_num : (2 : ℝ) ≠ 0)]
    ring
  rw [h12]
  norm_num

theorem uv_eval_ny : unit_sphere_uv_facing ⟨0, -1, 0⟩ ⟨1, 0, 0⟩
    = some (1 / 4, 1 / 2) := by
  rw [uv_facing_xaxis]
  unfold unit_sphere_uv
  rw [rot_zero_eval]
  unfold to_unit_spherical
  have hz : -((⟨0, -1, 0⟩ : Vec3).z) = 0 := by norm_num
  have hacos : acosF (-((⟨0, -1, 0⟩ : Vec3).z)) = some (π / 2) := by
    rw [hz]
    unfold acosF
    rw [if_neg (by norm_num), Real.arccos_zero]
  have hatan : atan2F ((⟨0, -1, 0⟩ : Vec3).y) ((⟨0, -1, 0⟩ : Vec3).x) = -(π / 2) := by
    rw [show ((⟨0, -1, 0⟩ : Vec3).y) = -1 from rfl, show ((⟨0, -1, 0⟩ : Vec3).x) = 0 from rfl]
    exact atan2F_negone_zero
  simp only [hacos, hatan]
  have hphi : -(π / 2) + π + 0 = π / 2 := by ring
  rw [hphi, remEuclid_half_pi]
  have hu : π / 2 / (2 * π) = 1 / 4 := by
    rw [div_div, show (2 : ℝ) * (2 * π) = 4 * π by ring,
      div_eq_div_iff (by positivity) (by norm_num : (4 : ℝ) ≠ 0)]
    ring
  have hv : π / 2 / π = 1 / 2 := by
    rw [div_div, div_eq_div_iff (by positivity) (by norm_num : (2 : ℝ) ≠ 0)]
    ring
  rw [hu, hv]

theorem uv_eval_nz : unit_sphere_uv_facing ⟨0, 0, -1⟩ ⟨1, 0, 0⟩
    = some (1 / 2, 0) := by
  rw [uv_facing_xaxis]
  unfold unit_sphere_uv
  rw [rot_zero_eval]
  unfold to_unit_spherical
  have hacos : acosF (-((⟨0, 0, -1⟩ : Vec3).z)) = some 0 := by
    rw [show -((⟨0, 0, -1⟩ : Vec3).z) = 1 by norm_num]
    unfold acosF
    rw [if_neg (by norm_num), Real.arccos_one]
  have hatan : atan2F ((⟨0, 0, -1⟩ : Vec3).y) ((⟨0, 0, -1⟩ : Vec3).x) = 0 := by
    rw [show ((⟨0, 0, -1⟩ : Vec3).y) = 0 from rfl, show ((⟨0, 0, -1⟩ : Vec3).x) = 0 from rfl]
    exact atan2F_zero_zero
  simp only [hacos, hatan]
  have hphi : (0 : ℝ) + π + 0 = π := by ring
  rw [hphi, remEuclid_pi]
  have hu : π / (2 * π) = 1 / 2 := by
    rw [div_eq_div_iff (by positivity) (by norm_num : (2 : ℝ) ≠ 0)]
    ring
  rw [hu]
  norm_num

theorem uv_eval_pz : unit_sphere_uv_facing ⟨0, 0, 1⟩ ⟨1, 0, 0⟩
    = some (1 / 2, 1) := by
  rw [uv_facing_xaxis]
  unfold unit_sphere_uv
  rw [rot_zero_eval]
  unfold to_unit_spherical
  have hacos : acosF (-((⟨0, 0, 1⟩ : Vec3).z)) = some π := by
    rw [show -((⟨0, 0, 1⟩ : Vec3).z) = -1 by norm_num]
    unfold acosF
    rw [if_neg (by norm_num), Real.arccos_neg_one]
  have hatan : atan2F ((⟨0, 0, 1⟩ : Vec3).y) ((⟨0, 0, 1⟩ : Vec3).x) = 0 := by
    rw [show ((⟨0, 0, 1⟩ : Vec3).y) = 0 from rfl, show ((⟨0, 0, 1⟩ : Vec3).x) = 0 from rfl]
    exact atan2F_zero_zero
  simp only [hacos, hatan]
  have hphi : (0 : ℝ) + π + 0 = π := by ring
  rw [hphi, remEuclid_pi]
  have hu : π / (2 * π) = 1 / 2 := by
    rw [div_eq_div_iff (by positivity) (by norm_num : (2 : ℝ) ≠ 0)]
    ring
  have hv : π / π = 1 := div_self Real.pi_ne_zero
  rw [hu, hv]

theorem sphereTangent_disc_eval : sphereDisc sphereTangent rayTangent = 0 := by
  simp [sphereDisc, sphereH, sphereA, sphereC, sphereOc, sphereTangent,
    rayTangent, Sphere.mk', Sphere.new_facing]

theorem sphereTangent_t1_eval : sphereT1 sphereTangent rayTangent = some 2 := by
  rw [sphereT1, sphereTangent_disc_eval]
  have ha : sphereA rayTangent = 1 := by
    simp [sphereA, rayTangent]
  have hh : sphereH sphereTangent rayTangent = 2 := by
    simp [sphereH, sphereOc, sphereTangent, rayTangent, Sphere.mk',
      Sphere.new_facing]
  rw [ha, hh, Real.sqrt_zero]
  unfold divF
  norm_num

theorem sphereTangent_root_eval :
    sphereRoot sphereTangent rayTangent rngMain = some 2 :=
  sphereRoot_of_t1 sphereTangent rayTangent rngMain 2
    (by rw [sphereTangent_disc_eval]) sphereTangent_t1_eval
    (by unfold rngMain RangeF.containsF; norm_num)

theorem sphereTangent_normal_eval :
    sphereNormal sphereTangent rayTangent 2 = some (⟨0, -1, 0⟩, false) := by
  have hv : vdivF (rayTangent.pointAt 2 - sphereTangent.center) sphereTangent.radius
      = some ⟨0, 1, 0⟩ := by
    unfold vdivF
    rw [if_neg (by simp [sphereTangent, Sphere.mk', Sphere.new_facing])]
    simp [sphereTangent, rayTangent, Sphere.mk', Sphere.new_facing, Vec3.smul]
  unfold sphereNormal
  simp only [hv]
  rw [if_neg (by simp [Intersection.frontFaceTest, rayTangent])]
  rw [show (-(⟨0, 1, 0⟩ : Vec3)) = (⟨0, -1, 0⟩ : Vec3) by simp]

theorem sphereTangent_front_eval : sphereTangent.front_direction = ⟨1, 0, 0⟩ := rfl

theorem sphereTangent_hit_eval :
    sphereHit sphereTangent rayTangent rngMain
      = some ⟨⟨0, 1, 0⟩, ⟨0, -1, 0⟩, 2, matGray, false, (1 / 4, 1 / 2)⟩ := by
  have h := sphereHit_eq_some sphereTangent rayTangent rngMain 2 ⟨0, -1, 0⟩ false
    (1 / 4, 1 / 2) sphereTangent_root_eval sphereTangent_normal_eval
    (by rw [sphereTangent_front_eval]; exact uv_eval_ny)
  rw [h]
  have hpt : rayTangent.pointAt 2 = ⟨0, 1, 0⟩ := by
    simp [rayTangent]
  rw [hpt]
  rfl

/-- C6 counterexample: the tangent ray grazing the unit sphere
(discriminant exactly zero) produces an intersection whose normal is
perpendicular to the ray direction: `dot(ray.direction, normal) = 0`, so
the claim's strict `dot < 0` is violated. -/
theorem C6_counterexample :
    sphereHit sphereTangent rayTangent rngMain
      = some ⟨⟨0, 1, 0⟩, ⟨0, -1, 0⟩, 2, matGray, false, (1 / 4, 1 / 2)⟩ ∧
    Vec3.dot rayTangent.direction (⟨0, -1, 0⟩ : Vec3) = 0 ∧
    ¬Vec3.dot rayTangent.direction (⟨0, -1, 0⟩ : Vec3) < 0 := by
  refine ⟨sphereTangent_hit_eval, ?_, ?_⟩
  · simp [rayTangent]
  · simp [rayTangent]

theorem triangleHit_char (tri : Triangle) (r : Ray) (rng : RangeF) :
    triangleHit tri r rng
      = if triCond tri r rng then some (triRecord tri r) else none := by
  unfold triangleHit
  rcases lt_or_le (triDet tri r) f32Eps with h1 | h1
  · rw [if_pos h1, if_neg (by intro hc; obtain ⟨hge, -⟩ := hc; linarith)]
  · rw [if_neg (not_lt.mpr h1)]
    by_cases h2 : 0 ≤ triU tri r ∧ triU tri r ≤ 1
    · rw [if_neg (not_not_intro h2)]
      by_cases h3 : triV tri r < 0 ∨ 1 < triU tri r + triV tri r
      · rw [if_pos h3, if_neg (by
          intro hc
          obtain ⟨-, -, -, hv, hsum, -⟩ := hc
          rcases h3 with h | h <;> linarith)]
      · rw [if_neg h3]
        push_neg at h3
        by_cases h4 : rng.containsF (triDist tri r)
        · rw [if_neg (not_not_intro h4)]
          by_cases h5 : f32Eps < triDist tri r
          · rw [if_pos h5,
              if_pos (show triCond tri r rng from
                ⟨h1, h2.1, h2.2, h3.1, h3.2, h4, h5⟩)]
            rfl
          · rw [if_neg h5, if_neg (by
              intro hc
              obtain ⟨-, -, -, -, -, -, hd⟩ := hc
              exact h5 hd)]
        · rw [if_pos h4, if_neg (by
            intro hc
            obtain ⟨-, -, -, -, -, hc6, -⟩ := hc
            exact h4 hc6)]
    · rw [if_pos h2, if_neg (by
        intro hc
        obtain ⟨-, hu0, hu1, -⟩ := hc
        exact h2 ⟨hu0, hu1⟩)]

theorem triangleHit_narrow (tri : Triangle) (r : Ray) (st e e' : ℝ) (he : e' ≤ e) :
    (∀ i, triangleHit tri r ⟨st, e⟩ = some i →
      (i.t < e' → triangleHit tri r ⟨st, e'⟩ = some i) ∧
      (e' ≤ i.t → triangleHit tri r ⟨st, e'⟩ = none)) ∧
    (triangleHit tri r ⟨st, e⟩ = none → triangleHit tri r ⟨st, e'⟩ = none) := by
  constructor
  · intro i hi
    rw [triangleHit_char] at hi
    by_cases hcond : triCond tri r ⟨st, e⟩
    · rw [if_pos hcond] at hi
      injection hi with hi'
      have hti : i.t = triDist tri r := by rw [← hi']; rfl
      obtain ⟨c1, c2, c3, c4, c5, c6, c7⟩ := hcond
      constructor
      · intro hlt
        rw [hti] at hlt
        have hc' : triCond tri r ⟨st, e'⟩ := ⟨c1, c2, c3, c4, c5, ⟨c6.1, hlt⟩, c7⟩
        rw [triangleHit_char, if_pos hc', hi']
      · intro hge
        rw [hti] at hge
        have hc' : ¬triCond tri r ⟨st, e'⟩ := by
          intro hc
          obtain ⟨-, -, -, -, -, ⟨-, hlt⟩, -⟩ := hc
          exact absurd hlt (not_lt.mpr hge)
        rw [triangleHit_char, if_neg hc']
    · rw [if_neg hcond] at hi
      exact absurd hi (by simp)
  · intro hnone
    rw [triangleHit_char] at hnone
    by_cases hcond : triCond tri r ⟨st, e⟩
    · rw [if_pos hcond] at hnone
      exact absurd hnone (by simp)
    · have hc' : ¬triCond tri r ⟨st, e'⟩ := by
        intro hc
        obtain ⟨c1, c2, c3, c4, c5, ⟨c6a, c6b⟩, c7⟩ := hc
        exact hcond ⟨c1, c2, c3, c4, c5, ⟨c6a, lt_of_lt_of_le c6b he⟩, c7⟩
      rw [triangleHit_char, if_neg hc']

theorem triangleHit_t_mem (tri : Triangle) (r : Ray) (rng : RangeF)
    (i : Intersection) (hi : triangleHit tri r rng = some i) :
    rng.containsF i.t := by
  rw [triangleHit_char] at hi
  by_cases hcond : triCond tri r rng
  · rw [if_pos hcond] at hi
    injection hi with hi'
    have hti : i.t = triDist tri r := by rw [← hi']; rfl
    rw [hti]
    exact hcond.2.2.2.2.2.1
  · rw [if_neg hcond] at hi
    exact absurd hi (by simp)

theorem sphereRoot_inv_strong (s : Sphere) (r : Ray) (rng : RangeF) (t : ℝ)
    (h : sphereRoot s r rng = some t) :
    0 ≤ sphereDisc s r ∧
    ((sphereT1 s r = some t ∧ rng.containsF t) ∨
      (¬rng.containsOpt (sphereT1 s r) ∧ sphereT2 s r = some t ∧
        rng.containsF t)) := by
  unfold sphereRoot at h
  rcases lt_or_le (sphereDisc s r) 0 with hd | hd
  · rw [if_pos hd] at h
    exact absurd h (by simp)
  · rw [if_neg (not_lt.mpr hd)] at h
    refine ⟨hd, ?_⟩
    cases ht1 : sphereT1 s r with
    | none =>
        simp only [ht1] at h
        cases ht2 : sphereT2 s r with
        | none =>
            simp only [ht2] at h
            exact absurd h (by simp)
        | some t2v =>
            simp only [ht2] at h
            by_cases hc : rng.containsF t2v
            · rw [if_pos hc] at h
              injection h with h'
              subst h'
              refine .inr ⟨?_, rfl, hc⟩
              exact fun hx => hx
            · rw [if_neg hc] at h
              exact absurd h (by simp)
    | some t1v =>
        simp only [ht1] at h
        by_cases hc1 : rng.containsF t1v
        · rw [if_pos hc1] at h
          injection h with h'
          subst h'
          exact .inl ⟨rfl, hc1⟩
        · rw [if_neg hc1] at h
          cases ht2 : sphereT2 s r with
          | none =>
              simp only [ht2] at h
              exact absurd h (by simp)
          | some t2v =>
              simp only [ht2] at h
              by_cases hc2 : rng.containsF t2v
              · rw [if_pos hc2] at h
                injection h with h'
                subst h'
                refine .inr ⟨?_, rfl, hc2⟩
                exact hc1
              · rw [if_neg hc2] at h
                exact absurd h (by simp)

theorem sphereRoot_none_inv (s : Sphere) (r : Ray) (rng : RangeF)
    (h : sphereRoot s r rng = none) :
    sphereDisc s r < 0 ∨
      (¬rng.containsOpt (sphereT1 s r) ∧ ¬rng.containsOpt (sphereT2 s r)) := by
  unfold sphereRoot at h
  rcases lt_or_le (sphereDisc s r) 0 with hd | hd
  · exact .inl hd
  · rw [if_neg (not_lt.mpr hd)] at h
    refine .inr ?_
    cases ht1 : sphereT1 s r with
    | none =>
        simp only [ht1] at h
        cases ht2 : sphereT2 s r with
        | none =>
            exact ⟨fun hx => hx, fun hx => hx⟩
        | some t2v =>
            simp only [ht2] at h
            by_cases hc : rng.containsF t2v
            · rw [if_pos hc] at h
              exact absurd h (by simp)
            · exact ⟨fun hx => hx, fun hx => hc hx⟩
    | some t1v =>
        simp only [ht1] at h
        by_cases hc1 : rng.containsF t1v
        · rw [if_pos hc1] at h
          exact absurd h (by simp)
        · rw [if_neg hc1] at h
          cases ht2 : sphereT2 s r with
          | none =>
              exact ⟨fun hx => hc1 hx, fun hx => hx⟩
          | some t2v =>
              simp only [ht2] at h
              by_cases hc2 : rng.containsF t2v
              · rw [if_pos hc2] at h
                exact absurd h (by simp)
              · exact ⟨fun hx => hc1 hx, fun hx => hc2 hx⟩

theorem sphereT2_isSome_of_T1 (s : Sphere) (r : Ray) (t : ℝ)
    (h : sphereT1 s r = some t) :
    ∃ t2v, sphereT2 s r = some t2v ∧ t ≤ t2v := by
  unfold sphereT1 divF at h
  by_cases ha : sphereA r = 0
  · rw [if_pos ha] at h
    exact absurd h (by simp)
  · rw [if_neg ha] at h
    injection h with h'
    have hapos : 0 < sphereA r := by
      rcases lt_or_eq_of_le (by
        have : 0 ≤ Vec3.normSq r.direction := Vec3.normSq_nonneg r.direction
        exact this) with hlt | heq
      · exact hlt
      · exact absurd heq.symm ha
    refine ⟨(sphereH s r + Real.sqrt (sphereDisc s r)) / sphereA r, ?_, ?_⟩
    · unfold sphereT2 divF
      rw [if_neg ha]
    · rw [← h', div_le_div_iff hapos hapos]
      nlinarith [Real.sqrt_nonneg (sphereDisc s r), hapos.le,
        mul_nonneg (Real.sqrt_nonneg (sphereDisc s r)) hapos.le]

theorem containsOpt_mono (st e e' : ℝ) (he : e' ≤ e) (o : Option ℝ)
    (h : ¬RangeF.containsOpt ⟨st, e⟩ o) : ¬RangeF.containsOpt ⟨st, e'⟩ o := by
  cases o with
  | none => simp [RangeF.containsOpt]
  | some t =>
      simp only [RangeF.containsOpt, RangeF.containsF, not_and, not_lt] at h ⊢
      intro hst
      exact le_trans he (h hst)

theorem sphereRoot_narrow (s : Sphere) (r : Ray) (st e e' : ℝ) (he : e' ≤ e) :
    (∀ t, sphereRoot s r ⟨st, e⟩ = some t →
      (t < e' → sphereRoot s r ⟨st, e'⟩ = some t) ∧
      (e' ≤ t → sphereRoot s r ⟨st, e'⟩ = none)) ∧
    (sphereRoot s r ⟨st, e⟩ = none → sphereRoot s r ⟨st, e'⟩ = none) := by
  constructor
  · intro t h
    obtain ⟨hd, hcase⟩ := sphereRoot_inv_strong s r ⟨st, e⟩ t h
    rcases hcase with ⟨h1, hc⟩ | ⟨hn1, h2, hc⟩
    · constructor
      · intro hlt
        exact sphereRoot_of_t1 s r ⟨st, e'⟩ t hd h1 ⟨hc.1, hlt⟩
      · intro hge
        obtain ⟨t2v, ht2, hle⟩ := sphereT2_isSome_of_T1 s r t h1
        apply sphereRoot_of_miss
        · rw [h1]
          exact fun hx => absurd hx.2 (not_lt.mpr hge)
        · rw [ht2]
          exact fun hx => absurd hx.2 (not_lt.mpr (le_trans hge hle))
    · constructor
      · intro hlt
        exact sphereRoot_of_t2 s r ⟨st, e'⟩ t hd
          (containsOpt_mono st e e' he _ hn1) h2 ⟨hc.1, hlt⟩
      · intro hge
        apply sphereRoot_of_miss
        · exact containsOpt_mono st e e' he _ hn1
        · rw [h2]
          exact fun hx => absurd hx.2 (not_lt.mpr hge)
  · intro h
    rcases sphereRoot_none_inv s r ⟨st, e⟩ h with hd | ⟨hn1, hn2⟩
    · exact sphereRoot_of_disc_neg s r ⟨st, e'⟩ hd
    · exact sphereRoot_of_miss s r ⟨st, e'⟩ (containsOpt_mono st e e' he _ hn1)
        (containsOpt_mono st e e' he _ hn2)

theorem sphereHit_narrow (s : Sphere) (r : Ray) (st e e' : ℝ) (he : e' ≤ e) :
    (∀ i, sphereHit s r ⟨st, e⟩ = some i →
      (i.t < e' → sphereHit s r ⟨st, e'⟩ = some i) ∧
      (e' ≤ i.t → sphereHit s r ⟨st, e'⟩ = none)) ∧
    (sphereHit s r ⟨st, e⟩ = none → sphereHit s r ⟨st, e'⟩ = none) := by
  obtain ⟨hns, hnn⟩ := sphereRoot_narrow s r st e e' he
  constructor
  · intro i hi
    obtain ⟨t, n, ff, uv, hroot, hn, huv, hieq⟩ := sphereHit_inv s r ⟨st, e⟩ i hi
    have hti : i.t = t := by rw [hieq]
    obtain ⟨hsome, hnone⟩ := hns t hroot
    constructor
    · intro hlt
      rw [hti] at hlt
      rw [sphereHit_eq_some s r ⟨st, e'⟩ t n ff uv (hsome hlt) hn huv, hieq]
    · intro hge
      rw [hti] at hge
      exact sphereHit_of_root_none s r ⟨st, e'⟩ (hnone hge)
  · intro hnone
    cases hroot : sphereRoot s r ⟨st, e⟩ with
    | none => exact sphereHit_of_root_none s r ⟨st, e'⟩ (hnn hroot)
    | some t =>
        obtain ⟨hsome, hnone'⟩ := hns t hroot
        rcases lt_or_le t e' with hlt | hge
        · cases hn : sphereNormal s r t with
          | none => exact sphereHit_eq_none_normal s r ⟨st, e'⟩ t (hsome hlt) hn
          | some nf =>
              obtain ⟨n, ff⟩ := nf
              cases huv : unit_sphere_uv_facing n s.front_direction with
              | none =>
                  exact sphereHit_eq_none_uv s r ⟨st, e'⟩ t n ff (hsome hlt) hn huv
              | some uv =>
                  rw [sphereHit_eq_some s r ⟨st, e⟩ t n ff uv hroot hn huv] at hnone
                  exact absurd hnone (by simp)
        · exact sphereHit_of_root_none s r ⟨st, e'⟩ (hnone' hge)

theorem sphereHit_t_mem (s : Sphere) (r : Ray) (rng : RangeF) (i : Intersection)
    (hi : sphereHit s r rng = some i) : rng.containsF i.t := by
  obtain ⟨t, n, ff, uv, hroot, hn, huv, hieq⟩ := sphereHit_inv s r rng i hi
  have hti : i.t = t := by rw [hieq]
  rw [hti]
  obtain ⟨hd, hcase⟩ := sphereRoot_inv_strong s r rng t hroot
  rcases hcase with ⟨-, hc⟩ | ⟨-, -, hc⟩ <;> exact hc

theorem shapeHit_t_mem (sh : Shape) (r : Ray) (rng : RangeF) (i : Intersection)
    (hi : Shape.hitS sh r rng = some i) : rng.containsF i.t := by
  cases sh with
  | sphere s => exact sphereHit_t_mem s r rng i hi
  | triangle t => exact triangleHit_t_mem t r rng i hi

theorem shapeHit_narrow (sh : Shape) (r : Ray) (st e e' : ℝ) (he : e' ≤ e) :
    (∀ i, Shape.hitS sh r ⟨st, e⟩ = some i →
      (i.t < e' → Shape.hitS sh r ⟨st, e'⟩ = some i) ∧
      (e' ≤ i.t → Shape.hitS sh r ⟨st, e'⟩ = none)) ∧
    (Shape.hitS sh r ⟨st, e⟩ = none → Shape.hitS sh r ⟨st, e'⟩ = none) := by
  cases sh with
  | sphere s => exact sphereHit_narrow s r st e e' he
  | triangle t => exact triangleHit_narrow t r st e e' he

theorem minOpt_right_comm (m a b : Option ℝ) :
    minOpt (minOpt m a) b = minOpt (minOpt m b) a := by
  cases m <;> cases a <;> cases b <;>
    simp [minOpt, min_assoc, min_comm, min_left_comm]

theorem worldStep_none (r : Ray) (st e : ℝ) (sh : Shape) :
    worldStep r st e none sh
      = (match Shape.hitS sh r ⟨st, e⟩ with
         | some i => some i
         | none => (none : Option Intersection)) := rfl

theorem worldStep_some (r : Ray) (st e : ℝ) (j : Intersection) (sh : Shape) :
    worldStep r st e (some j) sh
      = (match Shape.hitS sh r ⟨st, j.t⟩ with
         | some i => some i
         | none => some j) := rfl

theorem worldHitFold_eq_foldl (order : List Shape) (r : Ray) (rng : RangeF) :
    worldHitFold order r rng
      = order.foldl (worldStep r rng.start rng.stop) none := rfl

theorem bruteNearest_eq_foldl (shapes : List Shape) (r : Ray) (rng : RangeF) :
    bruteNearest shapes r rng = shapes.foldl (bruteStep r rng) none := rfl

theorem worldFold_min (r : Ray) (st e : ℝ) :
    ∀ (l : List Shape) (acc : Option Intersection),
      (∀ j, acc = some j → j.t < e) →
      Option.map Intersection.t (l.foldl (worldStep r st e) acc)
        = l.foldl
            (fun m sh => minOpt m ((Shape.hitS sh r ⟨st, e⟩).map Intersection.t))
            (Option.map Intersection.t acc) := by
  intro l
  induction l with
  | nil => intro acc hinv; rfl
  | cons sh l ih =>
      intro acc hinv
      rw [List.foldl_cons, List.foldl_cons]
      cases acc with
      | none =>
          rw [worldStep_none]
          cases hh : Shape.hitS sh r ⟨st, e⟩ with
          | none =>
              exact ih none (by intro j hj; exact absurd hj (by simp))
          | some i =>
              exact ih (some i) (by
                intro j hj
                injection hj with hj'
                rw [← hj']
                exact (shapeHit_t_mem sh r ⟨st, e⟩ i hh).2)
      | some j =>
          have hjt : j.t < e := hinv j rfl
          obtain ⟨hnar_some, hnar_none⟩ := shapeHit_narrow sh r st e j.t hjt.le
          rw [worldStep_some]
          cases hh : Shape.hitS sh r ⟨st, e⟩ with
          | none =>
              rw [hnar_none hh]
              exact ih (some j) (by
                intro j' hj'
                injection hj' with hj''
                rw [← hj'']
                exact hjt)
          | some i =>
              rcases lt_or_le i.t j.t with hlt | hge
              · rw [(hnar_some i hh).1 hlt]
                have hseed : minOpt (Option.map Intersection.t (some j))
                    (Option.map Intersection.t (some i))
                      = Option.map Intersection.t (some i) := by
                  show some (min j.t i.t) = some i.t
                  rw [min_eq_right hlt.le]
                rw [hseed]
                exact ih (some i) (by
                  intro j' hj'
                  injection hj' with hj''
                  rw [← hj'']
                  exact lt_trans hlt hjt)
              · rw [(hnar_some i hh).2 hge]
                have hseed : minOpt (Option.map Intersection.t (some j))
                    (Option.map Intersection.t (some i))
                      = Option.map Intersection.t (some j) := by
                  show some (min j.t i.t) = some j.t
                  rw [min_eq_left hge]
                rw [hseed]
                exact ih (some j) (by
                  intro j' hj'
                  injection hj' with hj''
                  rw [← hj'']
                  exact hjt)

theorem brute_min (r : Ray) (rng : RangeF) :
    ∀ (l : List Shape) (acc : Option Intersection),
      Option.map Intersection.t (l.foldl (bruteStep r rng) acc)
        = l.foldl
            (fun m sh => minOpt m ((Shape.hitS sh r rng).map Intersection.t))
            (Option.map Intersection.t acc) := by
  intro l
  induction l with
  | nil => intro acc; rfl
  | cons sh l ih =>
      intro acc
      rw [List.foldl_cons, List.foldl_cons]
      cases hh : Shape.hitS sh r rng with
      | none =>
          have hstep : bruteStep r rng acc sh = acc := by
            unfold bruteStep
            rw [hh]
          rw [hstep]
          have hseed : minOpt (Option.map Intersection.t acc)
              (Option.map Intersection.t (none : Option Intersection))
                = Option.map Intersection.t acc := by
            cases acc <;> rfl
          rw [hseed]
          exact ih acc
      | some i =>
          cases acc with
          | none =>
              have hstep : bruteStep r rng none sh = some i := by
                unfold bruteStep
                rw [hh]
              rw [hstep]
              exact ih (some i)
          | some j =>
              have hstep : bruteStep r rng (some j) sh
                  = if i.t < j.t then some i else some j := by
                unfold bruteStep
                rw [hh]
              rw [hstep]
              rcases lt_or_le i.t j.t with hlt | hge
              · have hseed : minOpt (Option.map Intersection.t (some j))
                    (Option.map Intersection.t (some i))
                      = Option.map Intersection.t (some i) := by
                  show some (min j.t i.t) = some i.t
                  rw [min_eq_right hlt.le]
                rw [if_pos hlt, hseed]
                exact ih (some i)
              · have hseed : minOpt (Option.map Intersection.t (some j))
                    (Option.map Intersection.t (some i))
                      = Option.map Intersection.t (some j) := by
                  show some (min j.t i.t) = some j.t
                  rw [min_eq_left hge]
                rw [if_neg (not_lt.mpr hge), hseed]
                exact ih (some j)

theorem foldl_minOpt_perm (g : Shape → Option ℝ) (l₁ l₂ : List Shape)
    (hp : l₁.Perm l₂) :
    ∀ m, l₁.foldl (fun m sh => minOpt m (g sh)) m
      = l₂.foldl (fun m sh => minOpt m (g sh)) m := by
  induction hp with
  | nil => intro m; rfl
  | cons x _ ih =>
      intro m
      rw [List.foldl_cons, List.foldl_cons]
      exact ih _
  | swap x y l =>
      intro m
      rw [List.foldl_cons, List.foldl_cons, List.foldl_cons, List.foldl_cons,
        minOpt_right_comm]
  | trans h1 h2 ih1 ih2 =>
      intro m
      rw [ih1, ih2]

/-- C1: with the BVH traversal modelled (from the spec) as delivering the
scene's shapes in an arbitrary order, `World::hit` — the fold that keeps the
nearest hit so far and shrinks the top of the query range — returns exactly
the hit the brute-force query (test every shape on the full range, keep the
minimal `t`) returns: `None` exactly when brute force returns `None`
(in particular for the empty scene), and otherwise an intersection with the
same `t`. -/
theorem C1_world_hit_nearest (shapes order : List Shape) (r : Ray) (rng : RangeF)
    (hperm : order.Perm shapes) :
    Option.map Intersection.t (worldHitFold order r rng)
      = Option.map Intersection.t (bruteNearest shapes r rng) ∧
    worldHitFold ([] : List Shape) r rng = none := by
  constructor
  · have h1 := worldFold_min r rng.start rng.stop order none
      (by intro j hj; exact absurd hj (by simp))
    have h2 := brute_min r rng shapes none
    have h3 := foldl_minOpt_perm
      (fun sh => (Shape.hitS sh r ⟨rng.start, rng.stop⟩).map Intersection.t)
      order shapes hperm none
    exact h1.trans (h3.trans h2.symm)
  · rfl

/-- C1 witness: the two-sphere corridor scene queried in both storage and
reversed traversal order yields the same nearest-hit parameter as the
brute-force query. -/
theorem C1_world_hit_nearest_witness :
    Option.map Intersection.t
        (worldHitFold [.sphere sphereBot, .sphere sphereTop] rayPrimary rngMain)
      = Option.map Intersection.t (bruteNearest corridorShapes rayPrimary rngMain) ∧
    worldHitFold ([] : List Shape) rayPrimary rngMain = none :=
  C1_world_hit_nearest corridorShapes [.sphere sphereBot, .sphere sphereTop]
    rayPrimary rngMain
    (List.Perm.swap (Shape.sphere sphereTop) (Shape.sphere sphereBot) [])

theorem max_one_zero : max (1 : ℝ) 0 = 1 := max_eq_left (by norm_num)

theorem sqrt_four : Real.sqrt 4 = 2 := by
  rw [show (4 : ℝ) = 2 ^ 2 by norm_num, Real.sqrt_sq (by norm_num : (0 : ℝ) ≤ 2)]

theorem sqrtEps_lt_one : Real.sqrt f32Eps < 1 := by
  rw [show (1 : ℝ) = Real.sqrt 1 from (Real.sqrt_one).symm]
  exact Real.sqrt_lt_sqrt (by unfold f32Eps; positivity) (by unfold f32Eps; norm_num)

theorem not_nearZero_down : ¬nearZero (⟨0, 0, -2⟩ : Vec3) := by
  intro hz
  have h3 : |(-2 : ℝ)| < Real.sqrt f32Eps := hz.2.2
  rw [show |(-2 : ℝ)| = 2 from by norm_num] at h3
  linarith [sqrtEps_lt_one]

theorem not_nearZero_up : ¬nearZero (⟨0, 0, 2⟩ : Vec3) := by
  intro hz
  have h3 : |(2 : ℝ)| < Real.sqrt f32Eps := hz.2.2
  rw [show |(2 : ℝ)| = 2 from by norm_num] at h3
  linarith [sqrtEps_lt_one]

theorem not_nearZero_escT : ¬nearZero (⟨1, 0, -1⟩ : Vec3) := by
  intro hz
  have h3 : |(1 : ℝ)| < Real.sqrt f32Eps := hz.1
  rw [show |(1 : ℝ)| = 1 from by norm_num] at h3
  linarith [sqrtEps_lt_one]

theorem not_nearZero_escB : ¬nearZero (⟨1, 0, 1⟩ : Vec3) := by
  intro hz
  have h3 : |(1 : ℝ)| < Real.sqrt f32Eps := hz.1
  rw [show |(1 : ℝ)| = 1 from by norm_num] at h3
  linarith [sqrtEps_lt_one]

theorem vadd_down : (⟨0, 0, -1⟩ : Vec3) + ⟨0, 0, -1⟩ = ⟨0, 0, -2⟩ := by norm_num

theorem vadd_up : (⟨0, 0, 1⟩ : Vec3) + ⟨0, 0, 1⟩ = ⟨0, 0, 2⟩ := by norm_num

theorem vadd_escT : (⟨0, 0, -1⟩ : Vec3) + ⟨1, 0, 0⟩ = ⟨1, 0, -1⟩ := by norm_num

theorem vadd_escB : (⟨0, 0, 1⟩ : Vec3) + ⟨1, 0, 0⟩ = ⟨1, 0, 1⟩ := by norm_num

theorem ray_down_eq : Ray.mk ⟨0, 0, 1⟩ ((⟨0, 0, -1⟩ : Vec3) + ⟨0, 0, -1⟩) = rayDown := by
  rw [vadd_down]
  rfl

theorem ray_up_eq : Ray.mk ⟨0, 0, -1⟩ ((⟨0, 0, 1⟩ : Vec3) + ⟨0, 0, 1⟩) = rayUp := by
  rw [vadd_up]
  rfl

theorem ray_escT_eq : Ray.mk ⟨0, 0, 1⟩ ((⟨0, 0, -1⟩ : Vec3) + ⟨1, 0, 0⟩) = rayEscTop := by
  rw [vadd_escT]
  rfl

theorem ray_escB_eq : Ray.mk ⟨0, 0, -1⟩ ((⟨0, 0, 1⟩ : Vec3) + ⟨1, 0, 0⟩) = rayEscBot := by
  rw [vadd_escB]
  rfl

theorem sphere_miss_disc (s : Sphere) (r : Ray) (rng : RangeF)
    (h : sphereDisc s r < 0) : sphereHit s r rng = none :=
  sphereHit_of_root_none s r rng (sphereRoot_of_disc_neg s r rng h)

theorem sphere_miss_nonpos (s : Sphere) (r : Ray) (e t1v t2v : ℝ)
    (h1 : sphereT1 s r = some t1v) (h2 : sphereT2 s r = some t2v)
    (hn1 : t1v ≤ 0) (hn2 : t2v ≤ 0) :
    sphereHit s r ⟨0.001, e⟩ = none := by
  apply sphereHit_of_root_none
  apply sphereRoot_of_miss
  · rw [h1]
    intro hc
    have hc' : (0.001 : ℝ) ≤ t1v ∧ t1v < e := hc
    have hpos : (0 : ℝ) < 0.001 := by norm_num
    linarith [hc'.1]
  · rw [h2]
    intro hc
    have hc' : (0.001 : ℝ) ≤ t2v ∧ t2v < e := hc
    have hpos : (0 : ℝ) < 0.001 := by norm_num
    linarith [hc'.1]

theorem top_up_hit_eval : sphereHit sphereTop rayUp ⟨0.001, 100⟩
    = some ⟨⟨0, 0, 1⟩, ⟨0, 0, -1⟩, 1, matGray, true, (1 / 2, 0)⟩ := by
  have ha : sphereA rayUp = 4 := by norm_num [sphereA, rayUp]
  have hh : sphereH sphereTop rayUp = 6 := by
    norm_num [sphereH, sphereOc, sphereTop, rayUp, Sphere.mk', Sphere.new_facing]
  have hd : sphereDisc sphereTop rayUp = 4 := by
    norm_num [sphereDisc, sphereH, sphereA, sphereC, sphereOc, sphereTop, rayUp,
      Sphere.mk', Sphere.new_facing, max_one_zero]
  have h1 : sphereT1 sphereTop rayUp = some 1 := by
    rw [sphereT1, hd, ha, hh, sqrt_four]
    unfold divF
    norm_num
  have hroot : sphereRoot sphereTop rayUp ⟨0.001, 100⟩ = some 1 :=
    sphereRoot_of_t1 sphereTop rayUp ⟨0.001, 100⟩ 1 (by rw [hd]; norm_num) h1
      (by unfold RangeF.containsF; norm_num)
  have hnorm : sphereNormal sphereTop rayUp 1 = some (⟨0, 0, -1⟩, true) := by
    have hv : vdivF (rayUp.pointAt 1 - sphereTop.center) sphereTop.radius
        = some ⟨0, 0, -1⟩ := by
      unfold vdivF
      rw [if_neg (by norm_num [sphereTop, Sphere.mk', Sphere.new_facing, max_one_zero])]
      norm_num [sphereTop, rayUp, Sphere.mk', Sphere.new_facing, max_one_zero]
    unfold sphereNormal
    simp only [hv]
    rw [if_pos (by norm_num [Intersection.frontFaceTest, rayUp])]
  have huv : unit_sphere_uv_facing (⟨0, 0, -1⟩ : Vec3) sphereTop.front_direction
      = some (1 / 2, 0) := by
    rw [show sphereTop.front_direction = (⟨1, 0, 0⟩ : Vec3) from rfl]
    exact uv_eval_nz
  have h := sphereHit_eq_some sphereTop rayUp ⟨0.001, 100⟩ 1 ⟨0, 0, -1⟩ true
    (1 / 2, 0) hroot hnorm huv
  rw [h]
  norm_num [rayUp, sphereTop, Sphere.mk', Sphere.new_facing]

theorem bot_down_hit_eval : sphereHit sphereBot rayDown ⟨0.001, 100⟩
    = some ⟨⟨0, 0, -1⟩, ⟨0, 0, 1⟩, 1, matGray, true, (1 / 2, 1)⟩ := by
  have ha : sphereA rayDown = 4 := by norm_num [sphereA, rayDown]
  have hh : sphereH sphereBot rayDown = 6 := by
    norm_num [sphereH, sphereOc, sphereBot, rayDown, Sphere.mk', Sphere.new_facing]
  have hd : sphereDisc sphereBot rayDown = 4 := by
    norm_num [sphereDisc, sphereH, sphereA, sphereC, sphereOc, sphereBot, rayDown,
      Sphere.mk', Sphere.new_facing, max_one_zero]
  have h1 : sphereT1 sphereBot rayDown = some 1 := by
    rw [sphereT1, hd, ha, hh, sqrt_four]
    unfold divF
    norm_num
  have hroot : sphereRoot sphereBot rayDown ⟨0.001, 100⟩ = some 1 :=
    sphereRoot_of_t1 sphereBot rayDown ⟨0.001, 100⟩ 1 (by rw [hd]; norm_num) h1
      (by unfold RangeF.containsF; norm_num)
  have hnorm : sphereNormal sphereBot rayDown 1 = some (⟨0, 0, 1⟩, true) := by
    have hv : vdivF (rayDown.pointAt 1 - sphereBot.center) sphereBot.radius
        = some ⟨0, 0, 1⟩ := by
      unfold vdivF
      rw [if_neg (by norm_num [sphereBot, Sphere.mk', Sphere.new_facing, max_one_zero])]
      norm_num [sphereBot, rayDown, Sphere.mk', Sphere.new_facing, max_one_zero]
    unfold sphereNormal
    simp only [hv]
    rw [if_pos (by norm_num [Intersection.frontFaceTest, rayDown])]
  have huv : unit_sphere_uv_facing (⟨0, 0, 1⟩ : Vec3) sphereBot.front_direction
      = some (1 / 2, 1) := by
    rw [show sphereBot.front_direction = (⟨1, 0, 0⟩ : Vec3) from rfl]
    exact uv_eval_pz
  have h := sphereHit_eq_some sphereBot rayDown ⟨0.001, 100⟩ 1 ⟨0, 0, 1⟩ true
    (1 / 2, 1) hroot hnorm huv
  rw [h]
  norm_num [rayDown, sphereBot, Sphere.mk', Sphere.new_facing]

theorem bot_up_hit_none (e : ℝ) : sphereHit sphereBot rayUp ⟨0.001, e⟩ = none := by
  have ha : sphereA rayUp = 4 := by norm_num [sphereA, rayUp]
  have hh : sphereH sphereBot rayUp = -2 := by
    norm_num [sphereH, sphereOc, sphereBot, rayUp, Sphere.mk', Sphere.new_facing]
  have hd : sphereDisc sphereBot rayUp = 4 := by
    norm_num [sphereDisc, sphereH, sphereA, sphereC, sphereOc, sphereBot, rayUp,
      Sphere.mk', Sphere.new_facing, max_one_zero]
  have h1 : sphereT1 sphereBot rayUp = some (-1) := by
    rw [sphereT1, hd, ha, hh, sqrt_four]
    unfold divF
    norm_num
  have h2 : sphereT2 sphereBot rayUp = some 0 := by
    rw [sphereT2, hd, ha, hh, sqrt_four]
    unfold divF
    norm_num
  exact sphere_miss_nonpos sphereBot rayUp e (-1) 0 h1 h2 (by norm_num) le_rfl

theorem top_down_hit_none (e : ℝ) : sphereHit sphereTop rayDown ⟨0.001, e⟩ = none := by
  have ha : sphereA rayDown = 4 := by norm_num [sphereA, rayDown]
  have hh : sphereH sphereTop rayDown = -2 := by
    norm_num [sphereH, sphereOc, sphereTop, rayDown, Sphere.mk', Sphere.new_facing]
  have hd : sphereDisc sphereTop rayDown = 4 := by
    norm_num [sphereDisc, sphereH, sphereA, sphereC, sphereOc, sphereTop, rayDown,
      Sphere.mk', Sphere.new_facing, max_one_zero]
  have h1 : sphereT1 sphereTop rayDown = some (-1) := by
    rw [sphereT1, hd, ha, hh, sqrt_four]
    unfold divF
    norm_num
  have h2 : sphereT2 sphereTop rayDown = some 0 := by
    rw [sphereT2, hd, ha, hh, sqrt_four]
    unfold divF
    norm_num
  exact sphere_miss_nonpos sphereTop rayDown e (-1) 0 h1 h2 (by norm_num) le_rfl

theorem top_escT_hit_none : sphereHit sphereTop rayEscTop ⟨0.001, 100⟩ = none := by
  have ha : sphereA rayEscTop = 2 := by norm_num [sphereA, rayEscTop]
  have hh : sphereH sphereTop rayEscTop = -1 := by
    norm_num [sphereH, sphereOc, sphereTop, rayEscTop, Sphere.mk', Sphere.new_facing]
  have hd : sphereDisc sphereTop rayEscTop = 1 := by
    norm_num [sphereDisc, sphereH, sphereA, sphereC, sphereOc, sphereTop, rayEscTop,
      Sphere.mk', Sphere.new_facing, max_one_zero]
  have h1 : sphereT1 sphereTop rayEscTop = some (-1) := by
    rw [sphereT1, hd, ha, hh, Real.sqrt_one]
    unfold divF
    norm_num
  have h2 : sphereT2 sphereTop rayEscTop = some 0 := by
    rw [sphereT2, hd, ha, hh, Real.sqrt_one]
    unfold divF
    norm_num
  exact sphere_miss_nonpos sphereTop rayEscTop 100 (-1) 0 h1 h2 (by norm_num) le_rfl

theorem bot_escT_hit_none : sphereHit sphereBot rayEscTop ⟨0.001, 100⟩ = none := by
  have hd : sphereDisc sphereBot rayEscTop = -7 := by
    norm_num [sphereDisc, sphereH, sphereA, sphereC, sphereOc, sphereBot, rayEscTop,
      Sphere.mk', Sphere.new_facing, max_one_zero]
  exact sphere_miss_disc sphereBot rayEscTop ⟨0.001, 100⟩ (by rw [hd]; norm_num)

theorem top_escB_hit_none : sphereHit sphereTop rayEscBot ⟨0.001, 100⟩ = none := by
  have hd : sphereDisc sphereTop rayEscBot = -7 := by
    norm_num [sphereDisc, sphereH, sphereA, sphereC, sphereOc, sphereTop, rayEscBot,
      Sphere.mk', Sphere.new_facing, max_one_zero]
  exact sphere_miss_disc sphereTop rayEscBot ⟨0.001, 100⟩ (by rw [hd]; norm_num)

theorem bot_escB_hit_none : sphereHit sphereBot rayEscBot ⟨0.001, 100⟩ = none := by
  have ha : sphereA rayEscBot = 2 := by norm_num [sphereA, rayEscBot]
  have hh : sphereH sphereBot rayEscBot = -1 := by
    norm_num [sphereH, sphereOc, sphereBot, rayEscBot, Sphere.mk', Sphere.new_facing]
  have hd : sphereDisc sphereBot rayEscBot = 1 := by
    norm_num [sphereDisc, sphereH, sphereA, sphereC, sphereOc, sphereBot, rayEscBot,
      Sphere.mk', Sphere.new_facing, max_one_zero]
  have h1 : sphereT1 sphereBot rayEscBot = some (-1) := by
    rw [sphereT1, hd, ha, hh, Real.sqrt_one]
    unfold divF
    norm_num
  have h2 : sphereT2 sphereBot rayEscBot = some 0 := by
    rw [sphereT2, hd, ha, hh, Real.sqrt_one]
    unfold divF
    norm_num
  exact sphere_miss_nonpos sphereBot rayEscBot 100 (-1) 0 h1 h2 (by norm_num) le_rfl

theorem world_up_eval : worldHitFold corridorShapes rayUp ⟨0.001, 100⟩
    = some ⟨⟨0, 0, 1⟩, ⟨0, 0, -1⟩, 1, matGray, true, (1 / 2, 0)⟩ := by
  rw [worldHitFold_eq_foldl]
  show List.foldl (worldStep rayUp 0.001 100) none
      [Shape.sphere sphereTop, Shape.sphere sphereBot] = _
  rw [List.foldl_cons, worldStep_none]
  simp only [Shape.hitS, top_up_hit_eval]
  rw [List.foldl_cons, worldStep_some]
  simp only [Shape.hitS, bot_up_hit_none]
  rw [List.foldl_nil]

theorem world_down_eval : worldHitFold corridorShapes rayDown ⟨0.001, 100⟩
    = some ⟨⟨0, 0, -1⟩, ⟨0, 0, 1⟩, 1, matGray, true, (1 / 2, 1)⟩ := by
  rw [worldHitFold_eq_foldl]
  show List.foldl (worldStep rayDown 0.001 100) none
      [Shape.sphere sphereTop, Shape.sphere sphereBot] = _
  rw [List.foldl_cons, worldStep_none]
  simp only [Shape.hitS, top_down_hit_none]
  rw [List.foldl_cons, worldStep_none]
  simp only [Shape.hitS, bot_down_hit_eval]
  rw [List.foldl_nil]

theorem world_escT_eval : worldHitFold corridorShapes rayEscTop ⟨0.001, 100⟩ = none := by
  rw [worldHitFold_eq_foldl]
  show List.foldl (worldStep rayEscTop 0.001 100) none
      [Shape.sphere sphereTop, Shape.sphere sphereBot] = none
  rw [List.foldl_cons, worldStep_none]
  simp only [Shape.hitS, top_escT_hit_none]
  rw [List.foldl_cons, worldStep_none]
  simp only [Shape.hitS, bot_escT_hit_none]
  rw [List.foldl_nil]

theorem world_escB_eval : worldHitFold corridorShapes rayEscBot ⟨0.001, 100⟩ = none := by
  rw [worldHitFold_eq_foldl]
  show List.foldl (worldStep rayEscBot 0.001 100) none
      [Shape.sphere sphereTop, Shape.sphere sphereBot] = none
  rw [List.foldl_cons, worldStep_none]
  simp only [Shape.hitS, top_escB_hit_none]
  rw [List.foldl_cons, worldStep_none]
  simp only [Shape.hitS, bot_escB_hit_none]
  rw [List.foldl_nil]

theorem scatter_gray (rin : Ray) (p n : Vec3) (t : ℝ) (ff : Bool) (uv : ℝ × ℝ)
    (v : Vec3) (ns k : ℝ) (hnz : ¬nearZero (n + v)) :
    scatterM matGray rin ⟨p, n, t, matGray, ff, uv⟩ ⟨v, ns, k⟩
      = some (⟨1 / 2, 1 / 2, 1 / 2⟩, Ray.mk p (n + v)) := by
  show scatterM (Material.Lambertian (TextureEnum.SolidColor ⟨1 / 2, 1 / 2, 1 / 2⟩))
      rin ⟨p, n, t, matGray, ff, uv⟩ ⟨v, ns, k⟩ = _
  simp only [scatterM, TextureEnum.value]
  rw [if_neg hnz]

theorem raycast_miss (tmax : ℝ) (shapes : List Shape) (d : ℕ) (r : Ray)
    (σ : ℕ → RandomDraw) (h : worldHitFold shapes r ⟨0.001, tmax⟩ = none) :
    raycastF tmax shapes d r σ = skyColor r.direction := by
  cases d <;> simp only [raycastF, h]

theorem sky_escT : skyColor rayEscTop.direction = skyEscape := by
  show skyColor ⟨1, 0, -1⟩ = skyEscape
  norm_num [skyColor, Vec3.normalize, Vec3.smul, Vec3.ONE, skyEscape]

theorem sky_escB : skyColor rayEscBot.direction = skyEscape := by
  show skyColor ⟨1, 0, 1⟩ = skyEscape
  norm_num [skyColor, Vec3.normalize, Vec3.smul, Vec3.ONE, skyEscape]

theorem raycast_escT (d : ℕ) (σ : ℕ → RandomDraw) :
    raycastF 100 corridorShapes d rayEscTop σ = skyEscape := by
  rw [raycast_miss 100 corridorShapes d rayEscTop σ world_escT_eval, sky_escT]

theorem raycast_escB (d : ℕ) (σ : ℕ → RandomDraw) :
    raycastF 100 corridorShapes d rayEscBot σ = skyEscape := by
  rw [raycast_miss 100 corridorShapes d rayEscBot σ world_escB_eval, sky_escB]

theorem topDraws_zero_escape : topDraws 0 0 = drawOf ⟨1, 0, 0⟩ := by
  simp [topDraws]

theorem botDraws_zero_escape : botDraws 0 0 = drawOf ⟨1, 0, 0⟩ := by
  simp [botDraws]

theorem topDraws_bounce (m : ℕ) : topDraws (m + 1) 0 = drawOf ⟨0, 0, -1⟩ := by
  simp [topDraws]

theorem botDraws_bounce (m : ℕ) : botDraws (m + 1) 0 = drawOf ⟨0, 0, 1⟩ := by
  simp [botDraws]

theorem topDraws_shift (m : ℕ) : (fun i => topDraws (m + 1) (i + 1)) = botDraws m := by
  funext i
  unfold topDraws botDraws
  rcases Nat.lt_or_ge i m with h | h
  · rw [if_pos (show i + 1 < m + 1 by omega), if_pos h]
    rcases Nat.mod_two_eq_zero_or_one i with h2 | h2
    · rw [if_neg (show ¬(i + 1) % 2 = 0 by omega), if_pos h2]
    · rw [if_pos (show (i + 1) % 2 = 0 by omega), if_neg (show ¬i % 2 = 0 by omega)]
  · rw [if_neg (show ¬i + 1 < m + 1 by omega), if_neg (show ¬i < m by omega)]

theorem botDraws_shift (m : ℕ) : (fun i => botDraws (m + 1) (i + 1)) = topDraws m := by
  funext i
  unfold topDraws botDraws
  rcases Nat.lt_or_ge i m with h | h
  · rw [if_pos (show i + 1 < m + 1 by omega), if_pos h]
    rcases Nat.mod_two_eq_zero_or_one i with h2 | h2
    · rw [if_neg (show ¬(i + 1) % 2 = 0 by omega), if_pos h2]
    · rw [if_pos (show (i + 1) % 2 = 0 by omega), if_neg (show ¬i % 2 = 0 by omega)]
  · rw [if_neg (show ¬i + 1 < m + 1 by omega), if_neg (show ¬i < m by omega)]

theorem step_top (d : ℕ) (σ : ℕ → RandomDraw) (v : Vec3) (h0 : σ 0 = drawOf v)
    (hnz : ¬nearZero ((⟨0, 0, -1⟩ : Vec3) + v)) :
    raycastF 100 corridorShapes (d + 1) rayUp σ
      = Vec3.componentMul ⟨1 / 2, 1 / 2, 1 / 2⟩
          (raycastF 100 corridorShapes d
            (Ray.mk ⟨0, 0, 1⟩ ((⟨0, 0, -1⟩ : Vec3) + v)) (fun i => σ (i + 1))) := by
  have hsc := scatter_gray rayUp ⟨0, 0, 1⟩ ⟨0, 0, -1⟩ 1 true (1 / 2, 0) v 0 1 hnz
  simp only [raycastF, world_up_eval, h0, drawOf, hsc]

theorem step_bot (d : ℕ) (σ : ℕ → RandomDraw) (v : Vec3) (h0 : σ 0 = drawOf v)
    (hnz : ¬nearZero ((⟨0, 0, 1⟩ : Vec3) + v)) :
    raycastF 100 corridorShapes (d + 1) rayDown σ
      = Vec3.componentMul ⟨1 / 2, 1 / 2, 1 / 2⟩
          (raycastF 100 corridorShapes d
            (Ray.mk ⟨0, 0, -1⟩ ((⟨0, 0, 1⟩ : Vec3) + v)) (fun i => σ (i + 1))) := by
  have hsc := scatter_gray rayDown ⟨0, 0, -1⟩ ⟨0, 0, 1⟩ 1 true (1 / 2, 1) v 0 1 hnz
  simp only [raycastF, world_down_eval, h0, drawOf, hsc]

theorem half_componentMul (v : Vec3) :
    Vec3.componentMul ⟨1 / 2, 1 / 2, 1 / 2⟩ v = ((1 : ℝ) / 2) • v := by
  obtain ⟨x, y, z⟩ := v
  simp

theorem cm_gray_zero :
    Vec3.componentMul ⟨1 / 2, 1 / 2, 1 / 2⟩ ⟨0, 0, 0⟩ = (⟨0, 0, 0⟩ : Vec3) := by
  norm_num

theorem smul_smul_vec (a b : ℝ) (v : Vec3) : a • (b • v) = (a * b) • v := by
  obtain ⟨x, y, z⟩ := v
  simp [mul_assoc]

theorem corridor_vals : ∀ m d : ℕ, m ≤ d →
    (raycastF 100 corridorShapes (d + 1) rayUp (topDraws m)
        = ((1 : ℝ) / 2) ^ (m + 1) • skyEscape) ∧
    (raycastF 100 corridorShapes (d + 1) rayDown (botDraws m)
        = ((1 : ℝ) / 2) ^ (m + 1) • skyEscape) := by
  intro m
  induction m with
  | zero =>
      intro d _
      constructor
      · rw [step_top d (topDraws 0) ⟨1, 0, 0⟩ topDraws_zero_escape
            (by rw [vadd_escT]; exact not_nearZero_escT)]
        rw [ray_escT_eq, raycast_escT, half_componentMul]
        norm_num
      · rw [step_bot d (botDraws 0) ⟨1, 0, 0⟩ botDraws_zero_escape
            (by rw [vadd_escB]; exact not_nearZero_escB)]
        rw [ray_escB_eq, raycast_escB, half_componentMul]
        norm_num
  | succ m ih =>
      intro d hmd
      obtain ⟨d', rfl⟩ : ∃ d', d = d' + 1 := ⟨d - 1, by omega⟩
      have hm' : m ≤ d' := by omega
      constructor
      · rw [step_top (d' + 1) (topDraws (m + 1)) ⟨0, 0, -1⟩ (topDraws_bounce m)
            (by rw [vadd_down]; exact not_nearZero_down)]
        rw [ray_down_eq, topDraws_shift m, (ih d' hm').2, half_componentMul,
          smul_smul_vec]
        rw [show (1 : ℝ) / 2 * ((1 : ℝ) / 2) ^ (m + 1) = ((1 : ℝ) / 2) ^ (m + 1 + 1)
          from by rw [pow_succ]; ring]
      · rw [step_bot (d' + 1) (botDraws (m + 1)) ⟨0, 0, 1⟩ (botDraws_bounce m)
            (by rw [vadd_up]; exact not_nearZero_up)]
        rw [ray_up_eq, botDraws_shift m, (ih d' hm').1, half_componentMul,
          smul_smul_vec]
        rw [show (1 : ℝ) / 2 * ((1 : ℝ) / 2) ^ (m + 1) = ((1 : ℝ) / 2) ^ (m + 1 + 1)
          from by rw [pow_succ]; ring]

theorem accum_step (b : ℕ) :
    Vec3.componentMul (((1 : ℝ) / 2) ^ b • Vec3.ONE) ⟨1 / 2, 1 / 2, 1 / 2⟩
      = ((1 : ℝ) / 2) ^ (b + 1) • Vec3.ONE := by
  simp only [Vec3.ONE, Vec3.smul_mk, Vec3.componentMul_mk, Vec3.mk_eq_iff]
  refine ⟨by ring, by ring, by ring⟩

theorem maxChannel_pow (k : ℕ) :
    maxChannel (((1 : ℝ) / 2) ^ k • Vec3.ONE) = ((1 : ℝ) / 2) ^ k := by
  simp only [Vec3.ONE, Vec3.smul_mk, maxChannel, mul_one, max_self]

theorem pow_half_le_one (k : ℕ) : ((1 : ℝ) / 2) ^ k ≤ 1 :=
  pow_le_one₀ (by norm_num) (by norm_num)

theorem one_smul_ONE : (1 : ℝ) • Vec3.ONE = Vec3.ONE := by
  norm_num [Vec3.ONE]

theorem rr_depth0_up (w b : ℕ) (accum : Vec3) (σ : ℕ → RandomDraw) :
    raycastSpecRR 100 corridorShapes w 0 b accum rayUp σ = ⟨0, 0, 0⟩ := by
  simp only [raycastSpecRR, world_up_eval]
  cases scatterM matGray rayUp ⟨⟨0, 0, 1⟩, ⟨0, 0, -1⟩, 1, matGray, true, (1 / 2, 0)⟩
    (σ 0) <;> rfl

theorem rr_depth0_down (w b : ℕ) (accum : Vec3) (σ : ℕ → RandomDraw) :
    raycastSpecRR 100 corridorShapes w 0 b accum rayDown σ = ⟨0, 0, 0⟩ := by
  simp only [raycastSpecRR, world_down_eval]
  cases scatterM matGray rayDown ⟨⟨0, 0, -1⟩, ⟨0, 0, 1⟩, 1, matGray, true, (1 / 2, 1)⟩
    (σ 0) <;> rfl

theorem corridor_rr_zero (w : ℕ) : ∀ m b d : ℕ, w = b + m →
    (raycastSpecRR 100 corridorShapes w (d + 1) b (((1 : ℝ) / 2) ^ b • Vec3.ONE)
        rayUp (topDraws m) = ⟨0, 0, 0⟩) ∧
    (raycastSpecRR 100 corridorShapes w (d + 1) b (((1 : ℝ) / 2) ^ b • Vec3.ONE)
        rayDown (botDraws m) = ⟨0, 0, 0⟩) := by
  intro m
  induction m with
  | zero =>
      intro b d hw
      constructor
      · have hsc := scatter_gray rayUp ⟨0, 0, 1⟩ ⟨0, 0, -1⟩ 1 true (1 / 2, 0)
          ⟨1, 0, 0⟩ 0 1 (by rw [vadd_escT]; exact not_nearZero_escT)
        simp only [raycastSpecRR, world_up_eval, topDraws_zero_escape, drawOf, hsc]
        rw [accum_step b, maxChannel_pow (b + 1)]
        rw [if_pos (show w ≤ b by omega)]
        rw [if_neg (not_lt.mpr (pow_half_le_one (b + 1)))]
      · have hsc := scatter_gray rayDown ⟨0, 0, -1⟩ ⟨0, 0, 1⟩ 1 true (1 / 2, 1)
          ⟨1, 0, 0⟩ 0 1 (by rw [vadd_escB]; exact not_nearZero_escB)
        simp only [raycastSpecRR, world_down_eval, botDraws_zero_escape, drawOf, hsc]
        rw [accum_step b, maxChannel_pow (b + 1)]
        rw [if_pos (show w ≤ b by omega)]
        rw [if_neg (not_lt.mpr (pow_half_le_one (b + 1)))]
  | succ m ih =>
      intro b d hw
      have hb : ¬w ≤ b := by omega
      constructor
      · have hsc := scatter_gray rayUp ⟨0, 0, 1⟩ ⟨0, 0, -1⟩ 1 true (1 / 2, 0)
          ⟨0, 0, -1⟩ 0 1 (by rw [vadd_down]; exact not_nearZero_down)
        simp only [raycastSpecRR, world_up_eval, topDraws_bounce, drawOf, hsc]
        rw [if_neg hb, accum_step b, ray_down_eq, topDraws_shift m]
        cases d with
        | zero =>
            rw [rr_depth0_down]
            exact cm_gray_zero
        | succ d' =>
            rw [(ih (b + 1) d' (by omega)).2]
            exact cm_gray_zero
      · have hsc := scatter_gray rayDown ⟨0, 0, -1⟩ ⟨0, 0, 1⟩ 1 true (1 / 2, 1)
          ⟨0, 0, 1⟩ 0 1 (by rw [vadd_up]; exact not_nearZero_up)
        simp only [raycastSpecRR, world_down_eval, botDraws_bounce, drawOf, hsc]
        rw [if_neg hb, accum_step b, ray_up_eq, botDraws_shift m]
        cases d with
        | zero =>
            rw [rr_depth0_up]
            exact cm_gray_zero
        | succ d' =>
            rw [(ih (b + 1) d' (by omega)).1]
            exact cm_gray_zero

/-- C4 counterexample: `Camera::raycast` does not apply Russian roulette at
any warm-up depth.  In the two-sphere corridor scene, a path that bounces
`warmup` times and then escapes has value `(1/2)^(warmup+1) · sky` under the
source integrator, while the spec's roulette integrator — whose survival
probability is the accumulated attenuation's maximum channel, at most `1/2`
past the first bounce — kills that path (roulette draw `1`) and returns
black, for every choice of warm-up depth. -/
theorem C4_counterexample : ¬ClaimC4RR := by
  rintro ⟨w, h⟩
  have hval := (corridor_vals w w le_rfl).1
  have hrr := (corridor_rr_zero w w 0 w (by omega)).1
  rw [pow_zero, one_smul_ONE] at hrr
  have hcl := h 100 corridorShapes (w + 1) rayUp (topDraws w)
  rw [hval, hrr] at hcl
  simp only [skyEscape, Vec3.smul_mk, Vec3.mk_eq_iff] at hcl
  obtain ⟨-, -, h3⟩ := hcl
  rw [mul_one] at h3
  have hp : (0 : ℝ) < ((1 : ℝ) / 2) ^ (w + 1) := by positivity
  linarith

/-- C4 (amended): `Camera::raycast` performs no Russian roulette — it
recurses unconditionally until the depth budget, an absorption or a miss
ends the path.  Equivalently, it coincides with the spec's
Russian-roulette integrator exactly on the roulette-free warm-up region:
whenever the remaining depth plus the bounces already taken stay within the
warm-up bound (`d + b ≤ warmup`), the two integrators agree — and (by the
counterexample) for no warm-up depth do they agree beyond it. -/
theorem C4_no_russian_roulette (tmax : ℝ) (shapes : List Shape) :
    ∀ (d w b : ℕ) (accum : Vec3) (r : Ray) (σ : ℕ → RandomDraw),
      d + b ≤ w →
      raycastSpecRR tmax shapes w d b accum r σ = raycastF tmax shapes d r σ := by
  intro d
  induction d with
  | zero =>
      intro w b accum r σ _
      rfl
  | succ d ih =>
      intro w b accum r σ hle
      cases hh : worldHitFold shapes r ⟨0.001, tmax⟩ with
      | none => simp only [raycastSpecRR, raycastF, hh]
      | some itx =>
          cases hs : scatterM itx.material r itx (σ 0) with
          | none => simp only [raycastSpecRR, raycastF, hh, hs]
          | some pr =>
              obtain ⟨att, sc⟩ := pr
              simp only [raycastSpecRR, raycastF, hh, hs]
              rw [if_neg (show ¬w ≤ b by omega)]
              exact congrArg (Vec3.componentMul att)
                (ih w (b + 1) (Vec3.componentMul accum att) sc
                  (fun i => σ (i + 1)) (by omega))

/-- Witness for C4: a concrete warm-up-region instance of the amended
theorem (depth 1, bounce 0, warm-up 2, the corridor scene). -/
theorem C4_no_russian_roulette_witness :
    1 + 0 ≤ 2 ∧
    raycastSpecRR 100 corridorShapes 2 1 0 Vec3.ONE rayUp (topDraws 0)
      = raycastF 100 corridorShapes 1 rayUp (topDraws 0) :=
  ⟨by decide, C4_no_russian_roulette 100 corridorShapes 1 2 0 Vec3.ONE rayUp
    (topDraws 0) (by decide)⟩


end Theorems
